import Mathlib

/-!
Verification of the MonDeployer repository: shallow embedding of the
deployment, compilation, artifact and token-transfer workflow, together
with theorems settling the specification claims.

The external libraries (the solc compiler and the ethers/viem blockchain
clients) are treated as black boxes, following the specification: network
calls become explicit oracle parameters, and the external address
validator (ethers.isAddress) becomes a Boolean-function parameter.
-/

set_option maxRecDepth 10000

deriving instance DecidableEq for Except

namespace MonDeployer

/-! ### Generic character-list helpers used throughout the embedding -/

/-- Boolean test that the first list is a prefix of the second. -/
def isPrefixChars : List Char → List Char → Bool
  | [], _ => true
  | _ :: _, [] => false
  | n :: ns, h :: hs => n = h && isPrefixChars ns hs

/-- Boolean substring containment on character lists. -/
def containsSub : List Char → List Char → Bool
  | [], needle => needle.isEmpty
  | h :: t, needle => isPrefixChars needle (h :: t) || containsSub t needle

/-- JS Array.prototype.join with a separator string. -/
def joinSep (sep : String) : List String → String
  | [] => ""
  | [x] => x
  | x :: y :: xs => x ++ sep ++ joinSep sep (y :: xs)

theorem isPrefixChars_append_self : ∀ (n b : List Char), isPrefixChars n (n ++ b) = true
  | [], _ => rfl
  | x :: xs, b => by simp [isPrefixChars, isPrefixChars_append_self xs b]

theorem containsSub_nil_needle : ∀ hay : List Char, containsSub hay [] = true := by
  intro hay
  cases hay <;> simp [containsSub, isPrefixChars, List.isEmpty]

theorem containsSub_of_append :
    ∀ (a needle b : List Char), containsSub (a ++ needle ++ b) needle = true := by
  intro a needle b
  induction a with
  | nil =>
    cases h : needle with
    | nil => simpa [h] using containsSub_nil_needle b
    | cons x xs =>
      have hp : isPrefixChars needle (needle ++ b) = true := isPrefixChars_append_self needle b
      subst h
      simpa [containsSub] using Or.inl hp
  | cons x xs ih =>
    simp only [List.cons_append]
    simp only [containsSub, Bool.or_eq_true]
    exact Or.inr (by simpa [List.append_assoc] using ih)

/-! ### Token Transfer Batch Runner

Embedding of sendTokens from src/monad-mcp/multi-tool-plugin-v2.cjs
(lines 320 to 459, the variant that lowercases recipients first) and from
src/unnamed/part_011 (lines 108 to 214, the variant that validates the raw
recipients).  The per-recipient network transfer (tokenContract.transfer
followed by tx.wait) is an external call and is modelled by an oracle
from the recipient index and address to either a receipt hash or an error
message.  The external validator ethers.isAddress is a parameter isAddr.
The token-info block (symbol, decimals, balanceOf) only logs and catches
all of its own errors, so it has no observable effect and is not modelled.
The env.js private-key load precedes everything and is assumed to have
succeeded, as in every batch invocation that actually runs.
-/

/-- JS String.prototype.toLowerCase restricted to ASCII, which covers hex
addresses; applied character by character. -/
def jsToLower (s : String) : String := String.mk (s.data.map Char.toLower)

/-- Validation of a single recipient, multi-tool-plugin-v2.cjs lines 366 to
386 (identical text in part_011 lines 121 to 141).  The typeof-string check
of the source is subsumed by the Lean type of the recipient (the MCP schema
already forces an array of strings).  Returns the first failing check as the
thrown error message. -/
def validateRecipient (isAddr : String → Bool) (r : String) : Except String Unit :=
  if !(isPrefixChars ['0', 'x'] r.data) then
    .error ("Invalid recipient: " ++ r ++ " - must start with 0x")
  else if !(r.length == 42) then
    .error ("Invalid recipient: " ++ r ++ " - must be 42 characters long (including 0x prefix)")
  else if !(isAddr r) then
    .error ("Invalid recipient: " ++ r ++ " - must be a valid EVM address")
  else
    .ok ()

/-- Validation loop over all recipients: the source for-loop throws at the
first failing recipient. -/
def validateAll (isAddr : String → Bool) : List String → Except String Unit
  | [] => .ok ()
  | r :: rs =>
    match validateRecipient isAddr r with
    | .error e => .error e
    | .ok _ => validateAll isAddr rs

/-- Result value of a successful sendTokens call: success is the literal
true of the source, sent collects (to, txHash) pairs and failed is undefined
(none) when no transfer failed, otherwise the (to, error) pairs. -/
structure SendTokensResult where
  success : Bool
  sent : List (String × String)
  failed : Option (List (String × String))
deriving DecidableEq, Repr

/-- Transfer loop of sendTokens: recipients are processed sequentially; a
per-recipient failure is caught and recorded, the loop continues.  The first
component collects the successes, the second the failures, both in input
order. -/
def runTransfers (oracle : Nat → String → Except String String) :
    Nat → List String → List (String × String) × List (String × String)
  | _, [] => ([], [])
  | i, r :: rs =>
    let rest := runTransfers oracle (i + 1) rs
    match oracle i r with
    | .ok h => ((r, h) :: rest.1, rest.2)
    | .error e => (rest.1, (r, e) :: rest.2)

/-- Specification-side list pairing each recipient with its oracle outcome,
in input order; used to state properties of the transfer loop. -/
def transferOutcomes (oracle : Nat → String → Except String String) :
    Nat → List String → List (String × Except String String)
  | _, [] => []
  | i, r :: rs => (r, oracle i r) :: transferOutcomes oracle (i + 1) rs

/-- Successful entries of the outcome list. -/
def okEntries (l : List (String × Except String String)) : List (String × String) :=
  l.filterMap fun p => match p.2 with | .ok h => some (p.1, h) | .error _ => none

/-- Failed entries of the outcome list. -/
def errEntries (l : List (String × Except String String)) : List (String × String) :=
  l.filterMap fun p => match p.2 with | .ok _ => none | .error e => some (p.1, e)

namespace MultiTool

/-- Embedding of sendTokens from multi-tool-plugin-v2.cjs (lines 320 to
459).  A JS falsy check on the token address string is the emptiness test.
Recipients are first all lowercased (line 362), then validated, then the
amount check runs, then the sequential transfer loop, and a batch with zero
successes throws. -/
def sendTokens (isAddr : String → Bool) (oracle : Nat → String → Except String String)
    (tokenAddress : String) (recipients : List String) (amount : Int) :
    Except String SendTokensResult :=
  if tokenAddress = "" || !(isAddr tokenAddress) then
    .error ("Invalid token address: " ++ tokenAddress)
  else if recipients.isEmpty then
    .error "Recipients must be a non-empty array of addresses"
  else
    let normalized := recipients.map jsToLower
    match validateAll isAddr normalized with
    | .error e => .error e
    | .ok _ =>
      if amount ≤ 0 then .error "Amount must be greater than 0"
      else
        let res := runTransfers oracle 0 normalized
        if res.1.isEmpty then .error "All transfers failed"
        else .ok { success := true, sent := res.1,
                   failed := if res.2.isEmpty then none else some res.2 }

end MultiTool

namespace Part011

/-- Embedding of sendTokens from src/unnamed/part_011 (lines 108 to 214):
identical to the multi-tool variant except that recipients are validated
and transferred in their original casing (no lowercasing step). -/
def sendTokens (isAddr : String → Bool) (oracle : Nat → String → Except String String)
    (tokenAddress : String) (recipients : List String) (amount : Int) :
    Except String SendTokensResult :=
  if tokenAddress = "" || !(isAddr tokenAddress) then
    .error ("Invalid token address: " ++ tokenAddress)
  else if recipients.isEmpty then
    .error "Recipients must be a non-empty array of addresses"
  else
    match validateAll isAddr recipients with
    | .error e => .error e
    | .ok _ =>
      if amount ≤ 0 then .error "Amount must be greater than 0"
      else
        let res := runTransfers oracle 0 recipients
        if res.1.isEmpty then .error "All transfers failed"
        else .ok { success := true, sent := res.1,
                   failed := if res.2.isEmpty then none else some res.2 }

end Part011

/-! ### Lemmas about the batch runner -/

theorem validateAll_error_of_mem {isAddr : String → Bool} :
    ∀ {l : List String}, (∃ r ∈ l, validateRecipient isAddr r ≠ .ok ()) →
      ∃ e, validateAll isAddr l = .error e := by
  intro l h
  induction l with
  | nil => rcases h with ⟨r, hr, _⟩; cases hr
  | cons x xs ih =>
    rcases h with ⟨r, hr, hbad⟩
    rcases List.mem_cons.mp hr with heq | hmem
    · subst heq
      cases hv : validateRecipient isAddr r with
      | error e => exact ⟨e, by simp [validateAll, hv]⟩
      | ok u => cases u; exact absurd hv hbad
    · cases hv : validateRecipient isAddr x with
      | error e => exact ⟨e, by simp [validateAll, hv]⟩
      | ok u =>
        cases u
        rcases ih ⟨r, hmem, hbad⟩ with ⟨e, he⟩
        exact ⟨e, by simp [validateAll, hv, he]⟩

theorem validateAll_ok_iff {isAddr : String → Bool} :
    ∀ {l : List String}, validateAll isAddr l = .ok () ↔
      ∀ r ∈ l, validateRecipient isAddr r = .ok () := by
  intro l
  induction l with
  | nil => simp [validateAll]
  | cons x xs ih =>
    constructor
    · intro h r hr
      cases hv : validateRecipient isAddr x with
      | error e => simp [validateAll, hv] at h
      | ok u =>
        cases u
        rcases List.mem_cons.mp hr with heq | hmem
        · subst heq; exact hv
        · exact ih.mp (by simpa [validateAll, hv] using h) r hmem
    · intro h
      have hx := h x (List.mem_cons_self x xs)
      simp [validateAll, hx]
      exact ih.mpr fun r hr => h r (List.mem_cons_of_mem x hr)

theorem runTransfers_fst (oracle : Nat → String → Except String String) :
    ∀ (i : Nat) (l : List String),
      (runTransfers oracle i l).1 = okEntries (transferOutcomes oracle i l) := by
  intro i l
  induction l generalizing i with
  | nil => simp [runTransfers, transferOutcomes, okEntries]
  | cons x xs ih =>
    cases ho : oracle i x with
    | ok h => simp [runTransfers, transferOutcomes, okEntries, ho, ih (i + 1)]
    | error e => simp [runTransfers, transferOutcomes, okEntries, ho, ih (i + 1)]

theorem runTransfers_snd (oracle : Nat → String → Except String String) :
    ∀ (i : Nat) (l : List String),
      (runTransfers oracle i l).2 = errEntries (transferOutcomes oracle i l) := by
  intro i l
  induction l generalizing i with
  | nil => simp [runTransfers, transferOutcomes, errEntries]
  | cons x xs ih =>
    cases ho : oracle i x with
    | ok h => simp [runTransfers, transferOutcomes, errEntries, ho, ih (i + 1)]
    | error e => simp [runTransfers, transferOutcomes, errEntries, ho, ih (i + 1)]

theorem transferOutcomes_fst (oracle : Nat → String → Except String String) :
    ∀ (i : Nat) (l : List String), (transferOutcomes oracle i l).map Prod.fst = l := by
  intro i l
  induction l generalizing i with
  | nil => simp [transferOutcomes]
  | cons x xs ih => simp [transferOutcomes, ih (i + 1)]

theorem okEntries_length_add_errEntries_length :
    ∀ l : List (String × Except String String),
      (okEntries l).length + (errEntries l).length = l.length := by
  intro l
  induction l with
  | nil => simp [okEntries, errEntries]
  | cons p ps ih =>
    cases hp : p.2 with
    | ok h => simp [okEntries, errEntries, hp] at ih ⊢; omega
    | error e => simp [okEntries, errEntries, hp] at ih ⊢; omega

/-- Master lemma: whenever validation of the lowercased recipients fails,
the multi-tool batch runner returns an error that does not depend on the
transfer oracle at all, so no recipient ever reaches the network call. -/
theorem MultiTool.sendTokens_error_of_validation
    (isAddr : String → Bool) (t : String) (recips : List String) (amt : Int)
    (h : validateAll isAddr (recips.map jsToLower) ≠ .ok ()) :
    ∃ e, ∀ oracle, MultiTool.sendTokens isAddr oracle t recips amt = .error e := by
  by_cases ht : (t = "" || !(isAddr t)) = true
  · exact ⟨"Invalid token address: " ++ t, fun oracle => by simp [MultiTool.sendTokens, ht]⟩
  · by_cases hr : recips.isEmpty
    · exact ⟨"Recipients must be a non-empty array of addresses",
        fun oracle => by simp_all [MultiTool.sendTokens]⟩
    · cases hv : validateAll isAddr (recips.map jsToLower) with
      | error e =>
        exact ⟨e, fun oracle => by
          simp only [MultiTool.sendTokens]
          rw [if_neg (by simpa using ht), if_neg hr, hv]⟩
      | ok u => cases u; exact absurd hv h

/-- Master lemma: the analogous fact for the part_011 variant, with the raw
recipients validated. -/
theorem Part011.sendTokens_error_of_validation_raw
    (isAddr : String → Bool) (t : String) (recips : List String) (amt : Int)
    (h : validateAll isAddr recips ≠ .ok ()) :
    ∃ e, ∀ oracle, Part011.sendTokens isAddr oracle t recips amt = .error e := by
  by_cases ht : (t = "" || !(isAddr t)) = true
  · exact ⟨"Invalid token address: " ++ t, fun oracle => by simp [Part011.sendTokens, ht]⟩
  · by_cases hr : recips.isEmpty
    · exact ⟨"Recipients must be a non-empty array of addresses",
        fun oracle => by simp_all [Part011.sendTokens]⟩
    · cases hv : validateAll isAddr recips with
      | error e =>
        exact ⟨e, fun oracle => by
          simp only [Part011.sendTokens]
          rw [if_neg (by simpa using ht), if_neg hr, hv]⟩
      | ok u => cases u; exact absurd hv h

/-- Master lemma: characterization of a multi-tool batch run that passes
every input check.  The result is determined by the oracle outcomes on the
lowercased recipients. -/
theorem MultiTool.sendTokens_run
    (isAddr : String → Bool) (oracle : Nat → String → Except String String)
    (t : String) (recips : List String) (amt : Int)
    (ht0 : t ≠ "") (ht1 : isAddr t = true) (hr : recips ≠ [])
    (hv : validateAll isAddr (recips.map jsToLower) = .ok ())
    (ha : 0 < amt) :
    MultiTool.sendTokens isAddr oracle t recips amt =
      (if (runTransfers oracle 0 (recips.map jsToLower)).1.isEmpty then
        .error "All transfers failed"
      else
        .ok { success := true, sent := (runTransfers oracle 0 (recips.map jsToLower)).1,
              failed := if (runTransfers oracle 0 (recips.map jsToLower)).2.isEmpty then none
                        else some (runTransfers oracle 0 (recips.map jsToLower)).2 }) := by
  simp only [MultiTool.sendTokens]
  rw [if_neg (by simp [ht0, ht1]), if_neg (by simpa using hr), hv]
  rw [if_neg (by omega)]

/-- Concrete stand-in for the external address validator, used only to
instantiate witnesses and counterexamples: the shape test 0x followed by 40
hexadecimal digits (which is what ethers.isAddress reduces to on addresses
whose letters are all of one case). -/
def addrShape (s : String) : Bool :=
  isPrefixChars ['0', 'x'] s.data && s.length == 42 &&
    (s.data.drop 2).all fun c => c.isDigit || ('a' ≤ c && c ≤ 'f') || ('A' ≤ c && c ≤ 'F')

/-- Concrete token address for witnesses. -/
def tokA : String := "0xaaaaaaaaaaaaaaaaaaaaaaaaaaaaaaaaaaaaaaaa"

/-- Concrete valid recipient for witnesses. -/
def goodB : String := "0xbbbbbbbbbbbbbbbbbbbbbbbbbbbbbbbbbbbbbbbb"

/-- Concrete valid recipient for witnesses. -/
def goodC : String := "0xcccccccccccccccccccccccccccccccccccccccc"

/-! ### Claim C4 -/

/-- Concrete all-uppercase recipient used by the C4 counterexample. -/
def goodBupper : String := "0xBBBBBBBBBBBBBBBBBBBBBBBBBBBBBBBBBBBBBBBB"

/-- C4 counterexample: the part_011 variant of the batch runner, cited by
the claim, never normalizes recipient casing: a batch with an uppercase
recipient passes validation in its raw form and the transfer is submitted
with the raw address — the sent entry carries the uppercase address, which
differs from its lowercase form.  So the claim that every recipient is
first normalized to lowercase before validation and use fails for this
cited variant. -/
theorem sendTokens_part011_skips_normalization :
    Part011.sendTokens addrShape (fun _ _ => .ok "0xhash") tokA [goodBupper] 1 =
      .ok { success := true, sent := [(goodBupper, "0xhash")], failed := none } ∧
    jsToLower goodBupper ≠ goodBupper := by
  decide

/-- C4 amended: the multi-tool variant first lowercases every recipient and
then validates the strict per-recipient checks (0x prefix, exactly 42
characters, external address validity, non-emptiness being implied by the
prefix and length checks) on the normalized form; the part_011 variant
applies the same strict checks to the raw, unnormalized recipients, which
are also used unchanged as transfer arguments.  In both variants, a
recipient failing any check rejects the whole batch with exactly the first
failing validation message, before any transfer is submitted: the outcome
is the same for every transfer oracle. -/
theorem sendTokens_validation_policy
    (isAddr : String → Bool) (t : String) (recips : List String) (amt : Int) (e : String)
    (ht0 : t ≠ "") (ht1 : isAddr t = true) (hrne : ¬recips.isEmpty) :
    (validateAll isAddr (recips.map jsToLower) = .error e →
      ∀ oracle, MultiTool.sendTokens isAddr oracle t recips amt = .error e) ∧
    (validateAll isAddr recips = .error e →
      ∀ oracle, Part011.sendTokens isAddr oracle t recips amt = .error e) := by
  constructor
  · intro hv oracle
    simp only [MultiTool.sendTokens]
    rw [if_neg (by simp [ht0, ht1]), if_neg hrne, hv]
  · intro hv oracle
    simp only [Part011.sendTokens]
    rw [if_neg (by simp [ht0, ht1]), if_neg hrne, hv]

/-- Witness for the amended C4 at concrete inputs: the same malformed
recipient is reported lowercased by the multi-tool variant and verbatim by
the part_011 variant, regardless of the oracle. -/
theorem sendTokens_validation_policy_witness :
    MultiTool.sendTokens addrShape (fun _ _ => .ok "0xhash") tokA [goodB, "0x1B3"] 1 =
      .error "Invalid recipient: 0x1b3 - must be 42 characters long (including 0x prefix)" ∧
    Part011.sendTokens addrShape (fun _ _ => .ok "0xhash") tokA [goodB, "0x1B3"] 1 =
      .error "Invalid recipient: 0x1B3 - must be 42 characters long (including 0x prefix)" :=
  ⟨(sendTokens_validation_policy addrShape tokA [goodB, "0x1B3"] 1
      "Invalid recipient: 0x1b3 - must be 42 characters long (including 0x prefix)"
      (by decide) (by decide) (by decide)).1 (by decide) (fun _ _ => .ok "0xhash"),
    (sendTokens_validation_policy addrShape tokA [goodB, "0x1B3"] 1
      "Invalid recipient: 0x1B3 - must be 42 characters long (including 0x prefix)"
      (by decide) (by decide) (by decide)).2 (by decide) (fun _ _ => .ok "0xhash")⟩

/-! ### Claim C2 -/

/-- C2 counterexample: with N = 2 recipients of which K = 1 is a valid
address, the claim demands a batch outcome with exactly one entry across
sent and failed and a ValidationError-shaped per-recipient entry for the
malformed recipient.  Instead, both batch-runner variants throw a single
validation error for the malformed recipient and produce no outcome lists
at all (the valid recipient is never attempted).  The successful-transfer
oracle shows the rejection happens before any network call could succeed. -/
theorem sendTokens_malformed_rejects_whole_batch :
    validateRecipient addrShape (jsToLower goodB) = .ok () ∧
    validateRecipient addrShape (jsToLower "0x123") ≠ .ok () ∧
    MultiTool.sendTokens addrShape (fun _ _ => .ok "0xhash") tokA [goodB, "0x123"] 1 =
      .error "Invalid recipient: 0x123 - must be 42 characters long (including 0x prefix)" ∧
    Part011.sendTokens addrShape (fun _ _ => .ok "0xhash") tokA [goodB, "0x123"] 1 =
      .error "Invalid recipient: 0x123 - must be 42 characters long (including 0x prefix)" := by
  decide

/-- C2 amended: in a batch with at least one malformed recipient, the whole
batch is rejected with one validation error before any transfer is
submitted: the result is an error and is independent of the transfer
oracle, so neither the malformed nor the valid recipients ever reach the
network call, and no per-recipient outcome entries are produced.  This
holds for the lowercasing multi-tool variant (checks on the normalized
recipients) and for the part_011 variant (checks on the raw recipients). -/
theorem sendTokens_malformed_never_reaches_network
    (isAddr : String → Bool) (t : String) (recips : List String) (amt : Int) :
    ((∃ r ∈ recips.map jsToLower, validateRecipient isAddr r ≠ .ok ()) →
      ∃ e, ∀ oracle, MultiTool.sendTokens isAddr oracle t recips amt = .error e) ∧
    ((∃ r ∈ recips, validateRecipient isAddr r ≠ .ok ()) →
      ∃ e, ∀ oracle, Part011.sendTokens isAddr oracle t recips amt = .error e) := by
  constructor
  · intro h
    apply MultiTool.sendTokens_error_of_validation
    rcases validateAll_error_of_mem h with ⟨e, he⟩
    simp [he]
  · intro h
    apply Part011.sendTokens_error_of_validation_raw
    rcases validateAll_error_of_mem h with ⟨e, he⟩
    simp [he]

/-- Witness for the amended C2 at concrete inputs. -/
theorem sendTokens_malformed_never_reaches_network_witness :
    ∃ e, ∀ oracle,
      MultiTool.sendTokens addrShape oracle tokA [goodB, "0x123"] 1 = .error e :=
  (sendTokens_malformed_never_reaches_network addrShape tokA [goodB, "0x123"] 1).1
    ⟨"0x123", by decide, by decide⟩

/-! ### Claim C3 -/

/-- C3: for a multi-tool batch invocation that passes all the input checks
(valid non-empty token address, non-empty recipient list, all normalized
recipients valid, positive amount), the batch result is a success exactly
when at least one per-recipient transfer succeeded, it is the error
All-transfers-failed exactly when zero transfers succeeded, and the success
value carries the successes in sent and the failures in failed (failed
being left undefined when there were no failures). -/
theorem sendTokens_success_iff_one_transfer
    (isAddr : String → Bool) (oracle : Nat → String → Except String String)
    (t : String) (recips : List String) (amt : Int)
    (ht0 : t ≠ "") (ht1 : isAddr t = true) (hrne : recips ≠ [])
    (hv : validateAll isAddr (recips.map jsToLower) = .ok ())
    (ha : 0 < amt) :
    (okEntries (transferOutcomes oracle 0 (recips.map jsToLower)) = [] →
      MultiTool.sendTokens isAddr oracle t recips amt = .error "All transfers failed") ∧
    (okEntries (transferOutcomes oracle 0 (recips.map jsToLower)) ≠ [] →
      MultiTool.sendTokens isAddr oracle t recips amt =
        .ok { success := true,
              sent := okEntries (transferOutcomes oracle 0 (recips.map jsToLower)),
              failed :=
                if errEntries (transferOutcomes oracle 0 (recips.map jsToLower)) = [] then none
                else some (errEntries (transferOutcomes oracle 0 (recips.map jsToLower))) }) := by
  have hrun := MultiTool.sendTokens_run isAddr oracle t recips amt ht0 ht1 hrne hv ha
  rw [runTransfers_fst, runTransfers_snd] at hrun
  constructor
  · intro hz
    rw [hrun, if_pos (by simp [hz])]
  · intro hnz
    rw [hrun, if_neg (by simpa [List.isEmpty_iff] using hnz)]
    have : (errEntries (transferOutcomes oracle 0 (recips.map jsToLower))).isEmpty =
        decide (errEntries (transferOutcomes oracle 0 (recips.map jsToLower)) = []) := by
      cases errEntries (transferOutcomes oracle 0 (recips.map jsToLower)) <;> simp
    by_cases hz : errEntries (transferOutcomes oracle 0 (recips.map jsToLower)) = []
    · simp [this, hz]
    · simp [this, hz]

/-- Witness for C3 at concrete inputs: two recipients, the first transfer
succeeds and the second fails, so the batch is a success carrying one sent
entry and one failed entry. -/
theorem sendTokens_success_iff_one_transfer_witness :
    MultiTool.sendTokens addrShape
        (fun i _ => if i == 0 then .ok "0xhash0" else .error "execution reverted")
        tokA [goodB, goodC] 1 =
      .ok { success := true, sent := [(goodB, "0xhash0")],
            failed := some [(goodC, "execution reverted")] } := by
  have h := (sendTokens_success_iff_one_transfer addrShape
    (fun i _ => if i == 0 then .ok "0xhash0" else .error "execution reverted")
    tokA [goodB, goodC] 1 (by decide) (by decide) (by decide) (by decide) (by decide)).2
    (by decide)
  rw [h]
  decide

/-! ### Claim C10 -/

/-- C10 counterexample: a validation-passing batch with a single valid
recipient whose transfer fails produces no outcome entries at all: the
runner throws All-transfers-failed instead of returning one failed entry,
so the sizes of sent and failed do not sum to the number of recipients
(there are no such lists in the result). -/
theorem sendTokens_zero_success_discards_outcomes :
    validateAll addrShape ([goodB].map jsToLower) = .ok () ∧
    MultiTool.sendTokens addrShape (fun _ _ => .error "execution reverted") tokA [goodB] 1 =
      .error "All transfers failed" := by
  decide

/-- C10 amended: in a validation-passing multi-tool batch invocation that
returns a result (equivalently, at least one transfer succeeded), each
normalized recipient contributes exactly one outcome entry, to sent on
success and to failed on failure, the lists follow the input order of the
recipients as paired by transferOutcomes, the entry addresses are exactly
the normalized recipients, and the sizes of sent and failed sum to the
number of recipients.  When zero transfers succeed the runner instead
throws All-transfers-failed and returns no outcome lists. -/
theorem sendTokens_outcome_partition
    (isAddr : String → Bool) (oracle : Nat → String → Except String String)
    (t : String) (recips : List String) (amt : Int) (res : SendTokensResult)
    (ht0 : t ≠ "") (ht1 : isAddr t = true) (hrne : recips ≠ [])
    (hv : validateAll isAddr (recips.map jsToLower) = .ok ())
    (ha : 0 < amt)
    (hok : MultiTool.sendTokens isAddr oracle t recips amt = .ok res) :
    res.sent = okEntries (transferOutcomes oracle 0 (recips.map jsToLower)) ∧
    res.failed.getD [] = errEntries (transferOutcomes oracle 0 (recips.map jsToLower)) ∧
    res.sent.length + (res.failed.getD []).length = recips.length ∧
    (transferOutcomes oracle 0 (recips.map jsToLower)).map Prod.fst =
      recips.map jsToLower := by
  have hrun := MultiTool.sendTokens_run isAddr oracle t recips amt ht0 ht1 hrne hv ha
  rw [runTransfers_fst, runTransfers_snd] at hrun
  rw [hrun] at hok
  by_cases hz : (okEntries (transferOutcomes oracle 0 (recips.map jsToLower))).isEmpty
  · rw [if_pos hz] at hok; cases hok
  · rw [if_neg hz] at hok
    have hsent : res.sent = okEntries (transferOutcomes oracle 0 (recips.map jsToLower)) := by
      cases hok; rfl
    have hfail : res.failed =
        (if (errEntries (transferOutcomes oracle 0 (recips.map jsToLower))).isEmpty then none
         else some (errEntries (transferOutcomes oracle 0 (recips.map jsToLower)))) := by
      cases hok; rfl
    refine ⟨hsent, ?_, ?_, transferOutcomes_fst oracle 0 (recips.map jsToLower)⟩
    · rw [hfail]
      by_cases he : (errEntries (transferOutcomes oracle 0 (recips.map jsToLower))).isEmpty
      · rw [if_pos he]
        simp [List.isEmpty_iff] at he
        simp [he]
      · rw [if_neg he]; rfl
    · have hlen := okEntries_length_add_errEntries_length
        (transferOutcomes oracle 0 (recips.map jsToLower))
      have houtlen : (transferOutcomes oracle 0 (recips.map jsToLower)).length =
          recips.length := by
        have := congrArg List.length (transferOutcomes_fst oracle 0 (recips.map jsToLower))
        simpa using this
      rw [hsent]
      rw [hfail]
      by_cases he : (errEntries (transferOutcomes oracle 0 (recips.map jsToLower))).isEmpty
      · rw [if_pos he]
        simp only [List.isEmpty_iff] at he
        rw [he] at hlen
        simp only [List.length_nil] at hlen
        simp only [Option.getD_none, List.length_nil]
        omega
      · rw [if_neg he]
        simpa [houtlen] using hlen

/-- Witness for the amended C10 at concrete inputs. -/
theorem sendTokens_outcome_partition_witness :
    ([(goodB, "0xhash0")] : List (String × String)) =
        okEntries (transferOutcomes
          (fun i _ => if i == 0 then Except.ok "0xhash0" else Except.error "boom") 0
          ([goodB, goodC].map jsToLower)) ∧
    (some [(goodC, "boom")] : Option (List (String × String))).getD [] =
        errEntries (transferOutcomes
          (fun i _ => if i == 0 then Except.ok "0xhash0" else Except.error "boom") 0
          ([goodB, goodC].map jsToLower)) ∧
    ([(goodB, "0xhash0")] : List (String × String)).length +
        ((some [(goodC, "boom")] : Option (List (String × String))).getD []).length =
        ([goodB, goodC] : List String).length ∧
    (transferOutcomes
        (fun i _ => if i == 0 then Except.ok "0xhash0" else Except.error "boom") 0
        ([goodB, goodC].map jsToLower)).map Prod.fst = [goodB, goodC].map jsToLower :=
  sendTokens_outcome_partition addrShape
    (fun i _ => if i == 0 then Except.ok "0xhash0" else Except.error "boom")
    tokA [goodB, goodC] 1
    { success := true, sent := [(goodB, "0xhash0")], failed := some [(goodC, "boom")] }
    (by decide) (by decide) (by decide) (by decide) (by decide) (by decide)

/-! ### Deployment Executor

Two variants are embedded.  DeployScript.deployContract follows the deploy
function of the generated deployment script in src/monad-mcp/src/index.ts
(lines 184 to 357, identical in src/examples/deploy-contract-template.js):
it emits a structured result object.  ContractDeployer.deployContract
follows the embedded contract-deployer.ts in
src/monad-mcp/simple-mcp-plugin-v2.cjs (lines 674 to 749): it either
returns (address, transactionHash) or throws, with the catch block
rewrapping the message.  Network effects (sending the creation transaction
including the gas estimate, and waiting for the receipt) are oracle
parameters. -/

/-- Receipt of a confirmed transaction as seen by the scripts: only the
deployed-contract address field matters here; it is null (none) when the
transaction did not create a contract. -/
structure ViemReceipt where
  contractAddress : Option String
deriving DecidableEq, Repr

/-- Structured result of the generated deployment script (the JSON value it
prints), restricted to the fields the flow writes. -/
structure DeploymentResult where
  success : Bool
  address : Option String := none
  transactionHash : Option String := none
  error : Option String := none
deriving DecidableEq, Repr

namespace DeployScript

/-- Embedding of the deployContract function of the generated deployment
script (index.ts lines 184 to 357).  The private-key check and compilation
precede the network phase; compilation failure yields a success-false
result without a transaction hash.  After a hash is obtained, every failure
result carries the hash: both the receipt-wait failure (lines 277 to 283)
and the missing-contract-address case (lines 285 to 291). -/
def deployContract (compileRes : Except String Unit)
    (sendTx : Except String String)
    (waitReceipt : String → Except String ViemReceipt) : DeploymentResult :=
  match compileRes with
  | .error e => { success := false, error := some e }
  | .ok _ =>
    match sendTx with
    | .error e => { success := false, error := some ("Transaction failed: " ++ e) }
    | .ok hash =>
      match waitReceipt hash with
      | .error e =>
        { success := false, error := some ("Failed to get transaction receipt: " ++ e),
          transactionHash := some hash }
      | .ok receipt =>
        match receipt.contractAddress with
        | none =>
          { success := false,
            error := some "Contract deployment failed - no contract address in receipt",
            transactionHash := some hash }
        | some addr =>
          { success := true, address := some addr, transactionHash := some hash }

end DeployScript

namespace ContractDeployer

/-- Embedding of deployContract of the embedded contract-deployer.ts
(simple-mcp-plugin-v2.cjs lines 674 to 749).  The try block sends the
transaction (gas estimation folded into the send oracle), waits for the
receipt and requires a contract address; the catch block rewraps every
failure message, after which the transaction hash is no longer available
anywhere in the error value. -/
def deployContract (sendTx : Except String String)
    (waitReceipt : String → Except String ViemReceipt) :
    Except String (String × String) :=
  match
    (do
      let hash ← sendTx
      let receipt ← waitReceipt hash
      match receipt.contractAddress with
      | none => Except.error "Contract deployment failed - no contract address in receipt"
      | some addr => Except.ok (addr, hash) : Except String (String × String)) with
  | .error e => .error ("Deployment error: " ++ e)
  | .ok v => .ok v

end ContractDeployer

/-! ### Claim C1 -/

/-- C1 counterexample: for a confirmed deployment whose receipt has no
contract address, the embedded contract-deployer variant does fail, but its
error value is a bare message in which the transaction hash obtained before
the failure (here 0xfeedfacehash) does not occur, and the Except value has
no other field: the hash is not preserved in the error payload, against the
claim. -/
theorem deploy_no_address_embedded_loses_hash :
    ContractDeployer.deployContract (.ok "0xfeedfacehash")
        (fun _ => .ok { contractAddress := none }) =
      .error "Deployment error: Contract deployment failed - no contract address in receipt" ∧
    containsSub
        "Deployment error: Contract deployment failed - no contract address in receipt".data
        "0xfeedfacehash".data = false := by
  decide

/-- C1 amended: when the transaction is confirmed but the receipt carries
no deployed-contract address, both executors fail rather than succeed; the
generated deployment script preserves the transaction hash in its failure
payload (transactionHash field next to the error), while the embedded
contract-deployer fails with an error message that does not carry the
hash. -/
theorem deploy_no_address_fails_script_keeps_hash
    (sendTx : Except String String) (waitReceipt : String → Except String ViemReceipt)
    (hash : String)
    (hsend : sendTx = .ok hash)
    (hwait : waitReceipt hash = .ok { contractAddress := none }) :
    DeployScript.deployContract (.ok ()) sendTx waitReceipt =
      { success := false,
        error := some "Contract deployment failed - no contract address in receipt",
        transactionHash := some hash } ∧
    ContractDeployer.deployContract sendTx waitReceipt =
      .error "Deployment error: Contract deployment failed - no contract address in receipt" := by
  subst hsend
  constructor
  · simp [DeployScript.deployContract, hwait]
  · simp [ContractDeployer.deployContract, hwait, Bind.bind, Except.bind]

/-- Witness for the amended C1 at concrete inputs. -/
theorem deploy_no_address_fails_script_keeps_hash_witness :
    DeployScript.deployContract (.ok ()) (.ok "0xfeedfacehash")
        (fun _ => .ok { contractAddress := none }) =
      { success := false,
        error := some "Contract deployment failed - no contract address in receipt",
        transactionHash := some "0xfeedfacehash" } ∧
    ContractDeployer.deployContract (.ok "0xfeedfacehash")
        (fun _ => .ok { contractAddress := none }) =
      .error "Deployment error: Contract deployment failed - no contract address in receipt" :=
  deploy_no_address_fails_script_keeps_hash (.ok "0xfeedfacehash")
    (fun _ => .ok { contractAddress := none }) "0xfeedfacehash" rfl rfl

/-! ### Artifact Store

The store is the artifacts directory: a map from file names to parsed JSON
documents.  saveArtifactsScript is the artifact write of the generated
deployment script (index.ts lines 300 to 322, identical in
deploy-contract-template.js lines 362 to 382), which persists contractName,
address, abi, transactionHash, network, chainId and explorerUrl.
ContractDeployer.saveContractArtifacts is the embedded contract-deployer
variant (simple-mcp-plugin-v2.cjs lines 771 to 793), which persists only
contractName, address, abi and network; its signature does not even receive
the transaction hash.  loadArtifact is the by-name read of
src/interact-contract.js (lines 156 to 170): it reads and parses the file
derived from the contract name, failing when it does not exist; loadContract
then projects the address and abi fields.  ABI descriptor objects are
opaque to this system and modelled as opaque strings. -/

/-- Parsed artifact JSON document; absent keys are none. -/
structure ArtifactDoc where
  contractName : Option String := none
  address : Option String := none
  abi : Option (List String) := none
  transactionHash : Option String := none
  network : Option String := none
  chainId : Option Int := none
  explorerUrl : Option String := none
deriving DecidableEq, Repr

/-- Artifacts directory contents, as a map from file name to document. -/
def ArtifactStore : Type := String → Option ArtifactDoc

/-- Empty artifacts directory. -/
def emptyStore : ArtifactStore := fun _ => none

/-- File write: overwrites any existing document under the same name. -/
def writeFile (st : ArtifactStore) (key : String) (doc : ArtifactDoc) : ArtifactStore :=
  fun k => if k = key then some doc else st k

/-- Artifact save of the generated deployment script: all of the fields of
the artifact document are written, keyed by the contract name. -/
def saveArtifactsScript (st : ArtifactStore) (contractName address : String)
    (abi : List String) (hash : String) : ArtifactStore :=
  writeFile st (contractName ++ ".json")
    { contractName := some contractName, address := some address, abi := some abi,
      transactionHash := some hash, network := some "monad-testnet",
      chainId := some 10143,
      explorerUrl := some ("https://explorer.testnet.monad.xyz/tx/" ++ hash) }

namespace ContractDeployer

/-- Artifact save of the embedded contract-deployer.ts: only contractName,
address, abi and network are written; the transaction hash is not part of
the document. -/
def saveContractArtifacts (st : ArtifactStore) (contractName : String)
    (abi : List String) (address : String) : ArtifactStore :=
  writeFile st (contractName ++ ".json")
    { contractName := some contractName, address := some address, abi := some abi,
      network := some "monad-testnet" }

end ContractDeployer

/-- By-name artifact read of interact-contract.js: parse the file derived
from the contract name, or fail when absent. -/
def loadArtifact (st : ArtifactStore) (name : String) : Except String ArtifactDoc :=
  match st (name ++ ".json") with
  | none => .error ("Contract artifacts not found for " ++ name)
  | some doc => .ok doc

/-- Projection performed by loadContract for the by-name branch: the
address and abi fields of the loaded document. -/
def loadContract (st : ArtifactStore) (name : String) :
    Except String (Option String × Option (List String)) :=
  (loadArtifact st name).map fun a => (a.address, a.abi)

/-! ### Claim C7 -/

/-- C7 counterexample: a deployment saved through the embedded
contract-deployer saveContractArtifacts and loaded back by contract name
comes back without any transactionHash field (that saver never persists the
hash, its signature does not even receive it), so the loaded value cannot
be equal to the saved artifact in the transactionHash field. -/
theorem artifact_roundtrip_embedded_drops_hash :
    loadArtifact (ContractDeployer.saveContractArtifacts emptyStore "Token" ["abi0"] "0xaddr")
        "Token" =
      .ok { contractName := some "Token", address := some "0xaddr", abi := some ["abi0"],
            network := some "monad-testnet" } ∧
    (ContractDeployer.saveContractArtifacts emptyStore "Token" ["abi0"] "0xaddr"
        ("Token" ++ ".json")).map ArtifactDoc.transactionHash = some none := by
  decide

/-- C7 amended: saving an artifact and loading it back by contract name
round-trips the fields contractName, address and abi for both savers; the
transactionHash field also round-trips for the deployment-script saver,
which persists it, but not for the embedded contract-deployer saver, whose
documents always lack the hash. -/
theorem artifact_roundtrip
    (st : ArtifactStore) (name address : String) (abi : List String) (hash : String) :
    loadArtifact (saveArtifactsScript st name address abi hash) name =
      .ok { contractName := some name, address := some address, abi := some abi,
            transactionHash := some hash, network := some "monad-testnet",
            chainId := some 10143,
            explorerUrl := some ("https://explorer.testnet.monad.xyz/tx/" ++ hash) } ∧
    loadArtifact (ContractDeployer.saveContractArtifacts st name abi address) name =
      .ok { contractName := some name, address := some address, abi := some abi,
            network := some "monad-testnet" } := by
  constructor
  · simp [loadArtifact, saveArtifactsScript, writeFile]
  · simp [loadArtifact, ContractDeployer.saveContractArtifacts, writeFile]

/-! ### Compiler Adapter

FixedSolc.compileSolidity embeds compileSolidity of
src/monad-mcp/fixed-solc-plugin.cjs (lines 122 to 177, identical in
src/unnamed/part_011 lines 244 to 299).  ContractDeployer.compileSolidity
embeds the embedded contract-deployer.ts variant
(simple-mcp-plugin-v2.cjs lines 613 to 665).  The external compiler run is
replaced by its parsed output value; JS object-key iteration order is the
list order of the contracts association list. -/

/-- One entry of the compiler-output errors array. -/
structure SolcDiagnostic where
  severity : String
  message : String
  formattedMessage : String
deriving DecidableEq, Repr

/-- Compiled-contract data: the abi descriptors (opaque) and the bytecode
object, a bare hex string without 0x prefix as solc emits it. -/
structure SolcContract where
  abi : List String
  bytecodeObject : String
deriving DecidableEq, Repr

/-- Parsed compiler output for the single synthetic source file: optional
diagnostics array and the contracts of that file in key order. -/
structure SolcOutput where
  errors : Option (List SolcDiagnostic)
  contracts : List (String × SolcContract)
deriving DecidableEq, Repr

/-- Lookup of a contract by name in the output of the single file. -/
def lookupContract (l : List (String × SolcContract)) (name : String) :
    Option SolcContract :=
  (l.find? fun p => p.1 == name).map Prod.snd

namespace FixedSolc

/-- Embedding of compileSolidity of fixed-solc-plugin.cjs: if a diagnostics
array is present and some diagnostic has severity error, throw with the
join of all diagnostic messages; otherwise warnings are only logged and the
named contract is looked up, falling back to the first contract of the file
and throwing only when the file has no contracts at all. -/
def compileSolidity (output : SolcOutput) (contractName : String) :
    Except String SolcContract :=
  if (output.errors.getD []).any (fun d => d.severity == "error") then
    .error ("Compilation failed: " ++
      joinSep "\n" ((output.errors.getD []).map SolcDiagnostic.message))
  else
    match lookupContract output.contracts contractName with
    | some c => .ok c
    | none =>
      match output.contracts.head? with
      | some p => .ok p.2
      | none => .error "No compiled contracts found"

end FixedSolc

namespace ContractDeployer

/-- Embedding of compileSolidity of the embedded contract-deployer.ts:
diagnostics with severity error are filtered out and their
formattedMessages joined into one failure; with no fatal diagnostics the
named contract must be present (no fallback) and is returned with the 0x
prefix added to its bytecode. -/
def compileSolidity (output : SolcOutput) (contractName : String) :
    Except String (List String × String) :=
  let errs := (output.errors.getD []).filter fun d => d.severity == "error"
  if !errs.isEmpty then
    .error ("Compilation errors:\n" ++ joinSep "\n" (errs.map SolcDiagnostic.formattedMessage))
  else
    match lookupContract output.contracts contractName with
    | some c => .ok (c.abi, "0x" ++ c.bytecodeObject)
    | none => .error ("Contract " ++ contractName ++ " not found in the compiled output")

end ContractDeployer

/-! ### Claim C8 -/

/-- C8 counterexample: a compiler output whose only diagnostic is a warning
and which contains no contracts makes the adapter fail (No compiled
contracts found) although no diagnostic has severity error, refuting the
if-and-only-if of the claim and its warnings-only-proceeds-successfully
part; the embedded variant likewise fails on a warning-only output when the
requested contract is absent. -/
theorem compile_fails_without_error_diagnostic :
    FixedSolc.compileSolidity
        { errors := some [{ severity := "warning", message := "w", formattedMessage := "W" }],
          contracts := [] } "A" =
      .error "No compiled contracts found" ∧
    ContractDeployer.compileSolidity
        { errors := some [{ severity := "warning", message := "w", formattedMessage := "W" }],
          contracts := [] } "A" =
      .error "Contract A not found in the compiled output" ∧
    ¬(∃ d, d ∈ [({ severity := "warning", message := "w", formattedMessage := "W" } :
        SolcDiagnostic)] ∧ d.severity = "error") := by
  refine ⟨by decide, by decide, ?_⟩
  rintro ⟨d, hd, hsev⟩
  simp only [List.mem_singleton] at hd
  subst hd
  simp at hsev

/-- C8 amended: the Compiler Adapter fails because of diagnostics exactly
when at least one diagnostic has severity error, and that failure
aggregates the diagnostic messages into one error (the fixed-solc variant
joins every diagnostic message including the warnings, the embedded variant
joins exactly the formatted messages of the error-severity diagnostics);
when no diagnostic is an error and the file has at least one contract
(respectively, contains the requested contract) compilation proceeds
successfully, warnings being only logged; however, the adapter can also
fail without any error-severity diagnostic, when the output contains no (or
no matching) contract. -/
theorem compile_error_diagnostics_characterization
    (output : SolcOutput) (contractName : String) :
    ((output.errors.getD []).any (fun d => d.severity == "error") = true →
      FixedSolc.compileSolidity output contractName =
        .error ("Compilation failed: " ++
          joinSep "\n" ((output.errors.getD []).map SolcDiagnostic.message)) ∧
      ContractDeployer.compileSolidity output contractName =
        .error ("Compilation errors:\n" ++
          joinSep "\n" (((output.errors.getD []).filter
            fun d => d.severity == "error").map SolcDiagnostic.formattedMessage))) ∧
    ((output.errors.getD []).any (fun d => d.severity == "error") = false →
      (output.contracts ≠ [] → ∃ c, FixedSolc.compileSolidity output contractName = .ok c) ∧
      (∀ c, lookupContract output.contracts contractName = some c →
        FixedSolc.compileSolidity output contractName = .ok c ∧
        ContractDeployer.compileSolidity output contractName =
          .ok (c.abi, "0x" ++ c.bytecodeObject))) := by
  constructor
  · intro h
    constructor
    · simp [FixedSolc.compileSolidity, h]
    · have hne : ((output.errors.getD []).filter fun d => d.severity == "error") ≠ [] := by
        rcases List.any_eq_true.mp h with ⟨d, hd, hsev⟩
        intro hnil
        have : d ∈ (output.errors.getD []).filter fun d => d.severity == "error" :=
          List.mem_filter.mpr ⟨hd, hsev⟩
        simp [hnil] at this
      simp only [ContractDeployer.compileSolidity]
      rw [if_pos (by simpa [List.isEmpty_iff] using hne)]
  · intro h
    constructor
    · intro hne
      cases hl : lookupContract output.contracts contractName with
      | some c => exact ⟨c, by simp [FixedSolc.compileSolidity, h, hl]⟩
      | none =>
        cases hh : output.contracts.head? with
        | none => exact absurd (List.head?_eq_none_iff.mp hh) hne
        | some p => exact ⟨p.2, by simp [FixedSolc.compileSolidity, h, hl, hh]⟩
    · intro c hl
      have hfe : ((output.errors.getD []).filter fun d => d.severity == "error") = [] := by
        rw [List.filter_eq_nil_iff]
        intro d hd
        have := List.any_eq_false.mp h d hd
        simpa using this
      constructor
      · simp [FixedSolc.compileSolidity, h, hl]
      · simp [ContractDeployer.compileSolidity, hfe, hl]

/-- Witness for the amended C8 at concrete inputs: an output with one error
and one warning diagnostic fails with the aggregate message, and a
warning-only output with a contract compiles successfully. -/
theorem compile_error_diagnostics_characterization_witness :
    FixedSolc.compileSolidity
        { errors := some [{ severity := "error", message := "bad", formattedMessage := "BAD" },
                          { severity := "warning", message := "w", formattedMessage := "W" }],
          contracts := [] } "A" =
      .error "Compilation failed: bad\nw" ∧
    FixedSolc.compileSolidity
        { errors := some [{ severity := "warning", message := "w", formattedMessage := "W" }],
          contracts := [("A", { abi := ["f"], bytecodeObject := "6001" })] } "A" =
      .ok { abi := ["f"], bytecodeObject := "6001" } := by
  constructor
  · have h := (compile_error_diagnostics_characterization
      { errors := some [{ severity := "error", message := "bad", formattedMessage := "BAD" },
                        { severity := "warning", message := "w", formattedMessage := "W" }],
        contracts := [] } "A").1 (by decide)
    rw [h.1]
    decide
  · have h := ((compile_error_diagnostics_characterization
      { errors := some [{ severity := "warning", message := "w", formattedMessage := "W" }],
        contracts := [("A", { abi := ["f"], bytecodeObject := "6001" })] } "A").2
      (by decide)).2 { abi := ["f"], bytecodeObject := "6001" } (by decide)
    exact h.1

/-! ### Version Normalizer: the pragma regex

The JS regex is pragma, one or more whitespace, solidity, one or more
whitespace, a nonempty capture of non-semicolon characters, and a
semicolon; String.prototype.replace with a non-global regex rewrites the
leftmost match only.  The embedding scans positions left to right
(findMatch) and parses greedily at each position (matchAt), exactly as the
backtracking regex engine resolves this pattern: the whitespace runs are
maximal, the capture extends to the first semicolon, and when the capture
would be empty the engine gives the last whitespace character back to the
capture (possible only when the whitespace run has length at least two).
The JS whitespace class is modelled by its ASCII part, which covers
Solidity sources. -/

/-- ASCII part of the JS regex whitespace class. -/
def isSpaceChar (c : Char) : Bool :=
  c == ' ' || c == '\t' || c == '\n' || c == '\r' || c == '\x0b' || c == '\x0c'

/-- Literal pragma. -/
def pragmaLit : List Char := ['p', 'r', 'a', 'g', 'm', 'a']

/-- Literal solidity. -/
def solidityLit : List Char := ['s', 'o', 'l', 'i', 'd', 'i', 't', 'y']

/-- Replacement text of the version normalizers. -/
def replList : List Char := "pragma solidity 0.8.28;".data

/-- Version string of the replacement. -/
def versList : List Char := "0.8.28".data

/-- Strip an expected literal from the front of the input. -/
def stripPrefixLit : List Char → List Char → Option (List Char)
  | [], cs => some cs
  | _ :: _, [] => none
  | l :: ls, c :: cs => if c = l then stripPrefixLit ls cs else none

/-- Parse of the part of the pattern after the solidity literal: maximal
whitespace run, capture up to the first semicolon, then the semicolon.
Returns the consumed text, the capture and the remaining input. -/
def matchTail (cs : List Char) : Option (List Char × List Char × List Char) :=
  if (cs.takeWhile isSpaceChar).isEmpty then none
  else if ((cs.dropWhile isSpaceChar).dropWhile fun c => !(c == ';')).isEmpty then none
  else if ((cs.dropWhile isSpaceChar).takeWhile fun c => !(c == ';')).isEmpty then
    if 2 ≤ (cs.takeWhile isSpaceChar).length then
      some (cs.takeWhile isSpaceChar ++ [';'],
        (cs.takeWhile isSpaceChar).drop ((cs.takeWhile isSpaceChar).length - 1),
        ((cs.dropWhile isSpaceChar).dropWhile fun c => !(c == ';')).tail)
    else none
  else
    some (cs.takeWhile isSpaceChar ++
        ((cs.dropWhile isSpaceChar).takeWhile fun c => !(c == ';')) ++ [';'],
      (cs.dropWhile isSpaceChar).takeWhile (fun c => !(c == ';')),
      ((cs.dropWhile isSpaceChar).dropWhile fun c => !(c == ';')).tail)

/-- Result of a successful parse of the whole pattern at one position. -/
structure MatchAt where
  matched : List Char
  capture : List Char
  rest : List Char
deriving DecidableEq, Repr

/-- Parse of the whole pattern at the current position. -/
def matchAt (cs : List Char) : Option MatchAt :=
  match stripPrefixLit pragmaLit cs with
  | none => none
  | some cs1 =>
    if (cs1.takeWhile isSpaceChar).isEmpty then none
    else
      match stripPrefixLit solidityLit (cs1.dropWhile isSpaceChar) with
      | none => none
      | some cs3 =>
        match matchTail cs3 with
        | none => none
        | some (mt, cap, rest) =>
          some { matched := pragmaLit ++ cs1.takeWhile isSpaceChar ++ solidityLit ++ mt,
                 capture := cap, rest := rest }

/-- Leftmost match of the pattern: the text before the match, the matched
text, the capture and the text after the match. -/
structure RegexMatch where
  pre : List Char
  matched : List Char
  capture : List Char
  rest : List Char
deriving DecidableEq, Repr

/-- Leftmost-match search: try every position from the left.  The parse at
the empty input always fails, so the nil case returns none directly. -/
def findMatch : List Char → Option RegexMatch
  | [] => none
  | c :: cs =>
    match matchAt (c :: cs) with
    | some m => some { pre := [], matched := m.matched, capture := m.capture, rest := m.rest }
    | none =>
      match findMatch cs with
      | some r => some { r with pre := c :: r.pre }
      | none => none

/-- Shape of every text the pattern can match: the two literals, two
nonempty whitespace runs, a nonempty semicolon-free capture region and a
final semicolon, which is also the only semicolon of the text. -/
def DirectiveShape (m : List Char) : Prop :=
  ∃ w1 w2 cap, w1 ≠ [] ∧ w2 ≠ [] ∧ cap ≠ [] ∧
    (∀ c ∈ w1, isSpaceChar c = true) ∧ (∀ c ∈ w2, isSpaceChar c = true) ∧
    (∀ c ∈ cap, c ≠ ';') ∧
    m = pragmaLit ++ w1 ++ solidityLit ++ w2 ++ cap ++ [';']

/-! ### Support lemmas on takeWhile, dropWhile and the literal stripper -/

theorem stripPrefixLit_sound :
    ∀ {lit cs r : List Char}, stripPrefixLit lit cs = some r → cs = lit ++ r := by
  intro lit
  induction lit with
  | nil => intro cs r h; simpa [stripPrefixLit] using h
  | cons l ls ih =>
    intro cs r h
    cases cs with
    | nil => simp [stripPrefixLit] at h
    | cons c cs' =>
      by_cases hc : c = l
      · subst hc
        simp only [stripPrefixLit, if_pos rfl] at h
        simpa using congrArg (c :: ·) (ih h)
      · simp [stripPrefixLit, hc] at h

theorem stripPrefixLit_self : ∀ (lit r : List Char), stripPrefixLit lit (lit ++ r) = some r := by
  intro lit r
  induction lit with
  | nil => rfl
  | cons l ls ih => simp [stripPrefixLit, ih]

theorem takeWhile_append_of_sat {α : Type} {p : α → Bool} :
    ∀ {a : List α} (b : List α), (∀ c ∈ a, p c = true) →
      (a ++ b).takeWhile p = a ++ b.takeWhile p := by
  intro a
  induction a with
  | nil => intro b _; rfl
  | cons x xs ih =>
    intro b h
    have hx : p x = true := h x (List.mem_cons_self x xs)
    simp only [List.cons_append, List.takeWhile_cons, hx, if_true]
    rw [ih b fun c hc => h c (List.mem_cons_of_mem x hc)]

theorem dropWhile_append_of_sat {α : Type} {p : α → Bool} :
    ∀ {a : List α} (b : List α), (∀ c ∈ a, p c = true) →
      (a ++ b).dropWhile p = b.dropWhile p := by
  intro a
  induction a with
  | nil => intro b _; rfl
  | cons x xs ih =>
    intro b h
    have hx : p x = true := h x (List.mem_cons_self x xs)
    simp only [List.cons_append, List.dropWhile_cons, hx, if_true]
    exact ih b fun c hc => h c (List.mem_cons_of_mem x hc)

theorem takeWhile_cons_neg {α : Type} {p : α → Bool} {x : α} (l : List α) (h : p x = false) :
    (x :: l).takeWhile p = [] := by
  simp [List.takeWhile_cons, h]

theorem dropWhile_cons_neg {α : Type} {p : α → Bool} {x : α} (l : List α) (h : p x = false) :
    (x :: l).dropWhile p = x :: l := by
  simp [List.dropWhile_cons, h]

theorem sat_of_mem_takeWhile {α : Type} {p : α → Bool} :
    ∀ {l : List α} {c : α}, c ∈ l.takeWhile p → p c = true := by
  intro l
  induction l with
  | nil => intro c h; simp [List.takeWhile] at h
  | cons x xs ih =>
    intro c h
    by_cases hx : p x = true
    · simp only [List.takeWhile_cons, hx, if_true] at h
      rcases List.mem_cons.mp h with rfl | hmem
      · exact hx
      · exact ih hmem
    · rw [takeWhile_cons_neg xs (by simpa using hx)] at h
      cases h

theorem head_false_of_dropWhile_cons {α : Type} {p : α → Bool} :
    ∀ {l : List α} {x : α} {xs : List α}, l.dropWhile p = x :: xs → p x = false := by
  intro l
  induction l with
  | nil => intro x xs h; simp [List.dropWhile] at h
  | cons y ys ih =>
    intro x xs h
    by_cases hy : p y = true
    · simp only [List.dropWhile_cons, hy, if_true] at h
      exact ih h
    · rw [dropWhile_cons_neg ys (by simpa using hy)] at h
      cases h
      simpa using hy

theorem space_ne_semi {c : Char} (h : isSpaceChar c = true) : c ≠ ';' := by
  intro hc
  subst hc
  simp [isSpaceChar] at h

theorem ne_nil_of_isEmpty_false {α : Type} {l : List α} (h : l.isEmpty = false) : l ≠ [] := by
  cases l
  · simp at h
  · simp

/-! ### Soundness of the pattern parser -/

theorem matchTail_sound {cs mt cap rest : List Char}
    (h : matchTail cs = some (mt, cap, rest)) :
    cs = mt ++ rest ∧
    ∃ w c2, w ≠ [] ∧ c2 ≠ [] ∧ (∀ x ∈ w, isSpaceChar x = true) ∧
      (∀ x ∈ c2, x ≠ ';') ∧ mt = w ++ c2 ++ [';'] := by
  have hcsWT : cs.takeWhile isSpaceChar ++ cs.dropWhile isSpaceChar = cs :=
    List.takeWhile_append_dropWhile _ _
  have hTCU : ((cs.dropWhile isSpaceChar).takeWhile fun c => !(c == ';')) ++
      ((cs.dropWhile isSpaceChar).dropWhile fun c => !(c == ';')) =
      cs.dropWhile isSpaceChar :=
    List.takeWhile_append_dropWhile _ _
  by_cases hW : ((cs.takeWhile isSpaceChar).isEmpty : Bool)
  · rw [matchTail, if_pos hW] at h; cases h
  · cases hU : (cs.dropWhile isSpaceChar).dropWhile (fun c => !(c == ';')) with
    | nil => rw [matchTail, if_neg hW, if_pos (by rw [hU]; rfl)] at h; cases h
    | cons y rest' =>
      have hy : y = ';' := by
        have := head_false_of_dropWhile_cons hU
        simpa using this
      subst hy
      have hUne : (((cs.dropWhile isSpaceChar).dropWhile fun c => !(c == ';')).isEmpty) =
          false := by rw [hU]; rfl
      have htail : (((cs.dropWhile isSpaceChar).dropWhile fun c => !(c == ';')).tail) =
          rest' := by rw [hU]; rfl
      by_cases hC0 : ((((cs.dropWhile isSpaceChar).takeWhile fun c => !(c == ';'))).isEmpty : Bool)
      · by_cases hlen : 2 ≤ (cs.takeWhile isSpaceChar).length
        · rw [matchTail, if_neg hW, if_neg (by rw [hUne]; simp), if_pos hC0, if_pos hlen,
            htail] at h
          simp only [Option.some.injEq, Prod.mk.injEq] at h
          obtain ⟨hmt, hcap, hrest⟩ := h
          have hC0nil : ((cs.dropWhile isSpaceChar).takeWhile fun c => !(c == ';')) = [] := by
            cases hc : ((cs.dropWhile isSpaceChar).takeWhile fun c => !(c == ';')) with
            | nil => rfl
            | cons a b => rw [hc] at hC0; simp at hC0
          have hT : cs.dropWhile isSpaceChar = ';' :: rest' := by
            rw [← hTCU, hC0nil, hU]; rfl
          constructor
          · rw [← hmt, ← hrest]
            conv_lhs => rw [← hcsWT, hT]
            simp
          · refine ⟨(cs.takeWhile isSpaceChar).take ((cs.takeWhile isSpaceChar).length - 1),
              (cs.takeWhile isSpaceChar).drop ((cs.takeWhile isSpaceChar).length - 1), ?_, ?_,
              ?_, ?_, ?_⟩
            · intro hnil
              have := congrArg List.length hnil
              simp [List.length_take] at this
              omega
            · intro hnil
              have := congrArg List.length hnil
              simp [List.length_drop] at this
              omega
            · intro x hx
              exact sat_of_mem_takeWhile (List.take_subset _ _ hx)
            · intro x hx
              exact space_ne_semi (sat_of_mem_takeWhile (List.drop_subset _ _ hx))
            · rw [← hmt, List.take_append_drop]
        · rw [matchTail, if_neg hW, if_neg (by rw [hUne]; simp), if_pos hC0,
            if_neg hlen] at h
          cases h
      · rw [matchTail, if_neg hW, if_neg (by rw [hUne]; simp), if_neg hC0, htail] at h
        simp only [Option.some.injEq, Prod.mk.injEq] at h
        obtain ⟨hmt, hcap, hrest⟩ := h
        constructor
        · rw [← hmt, ← hrest]
          conv_lhs => rw [← hcsWT, ← hTCU, hU]
          simp
        · refine ⟨cs.takeWhile isSpaceChar,
            (cs.dropWhile isSpaceChar).takeWhile fun c => !(c == ';'),
            ne_nil_of_isEmpty_false (by simpa using hW), ?_, ?_, ?_, hmt.symm⟩
          · exact ne_nil_of_isEmpty_false (by simpa using hC0)
          · intro x hx; exact sat_of_mem_takeWhile hx
          · intro x hx
            have := sat_of_mem_takeWhile hx
            simpa using this

theorem mem_of_mem_dropWhile {α : Type} {p : α → Bool} :
    ∀ {l : List α} {c : α}, c ∈ l.dropWhile p → c ∈ l := by
  intro l
  induction l with
  | nil => intro c h; simp [List.dropWhile] at h
  | cons x xs ih =>
    intro c h
    by_cases hx : p x = true
    · simp only [List.dropWhile_cons, hx, if_true] at h
      exact List.mem_cons_of_mem x (ih h)
    · rw [dropWhile_cons_neg xs (by simpa using hx)] at h
      exact h

theorem isEmpty_false_of_ne_nil {α : Type} {l : List α} (h : l ≠ []) : l.isEmpty = false := by
  cases l
  · exact absurd rfl h
  · rfl

theorem matchAt_sound {cs : List Char} {m : MatchAt} (h : matchAt cs = some m) :
    cs = m.matched ++ m.rest ∧ DirectiveShape m.matched := by
  cases h1 : stripPrefixLit pragmaLit cs with
  | none => simp [matchAt, h1] at h
  | some cs1 =>
    by_cases hw : (cs1.takeWhile isSpaceChar).isEmpty
    · simp [matchAt, h1, hw] at h
    · cases h2 : stripPrefixLit solidityLit (cs1.dropWhile isSpaceChar) with
      | none => simp [matchAt, h1, hw, h2] at h
      | some cs3 =>
        cases h3 : matchTail cs3 with
        | none => simp [matchAt, h1, hw, h2, h3] at h
        | some trip =>
          obtain ⟨mt, cap, rest⟩ := trip
          simp only [matchAt, h1, h2, h3] at h
          rw [if_neg hw] at h
          have hm := Option.some.inj h
          obtain ⟨hcs3, ⟨w2, c2, hw2, hc2, hsatw2, hsemi, hmt⟩⟩ := matchTail_sound h3
          have hcs : cs = pragmaLit ++ cs1 := stripPrefixLit_sound h1
          have hsplit : cs1.takeWhile isSpaceChar ++ cs1.dropWhile isSpaceChar = cs1 :=
            List.takeWhile_append_dropWhile _ _
          have hT1 : cs1.dropWhile isSpaceChar = solidityLit ++ cs3 := stripPrefixLit_sound h2
          subst hm
          dsimp only
          constructor
          · calc cs = pragmaLit ++ cs1 := hcs
              _ = pragmaLit ++ (cs1.takeWhile isSpaceChar ++ cs1.dropWhile isSpaceChar) := by
                rw [hsplit]
              _ = pragmaLit ++ (cs1.takeWhile isSpaceChar ++ (solidityLit ++ cs3)) := by
                rw [hT1]
              _ = pragmaLit ++ (cs1.takeWhile isSpaceChar ++ (solidityLit ++ (mt ++ rest))) := by
                rw [hcs3]
              _ = pragmaLit ++ cs1.takeWhile isSpaceChar ++ solidityLit ++ mt ++ rest := by
                simp [List.append_assoc]
          · refine ⟨cs1.takeWhile isSpaceChar, w2, c2,
              ne_nil_of_isEmpty_false (by simpa using hw), hw2, hc2,
              fun x hx => sat_of_mem_takeWhile hx, hsatw2, hsemi, ?_⟩
            rw [hmt]
            simp [List.append_assoc]

/-! ### Completeness of the pattern parser on directive-shaped texts -/

theorem matchTail_shape {w2 c2 : List Char} (X : List Char)
    (hw2ne : w2 ≠ []) (hc2ne : c2 ≠ [])
    (hw2s : ∀ c ∈ w2, isSpaceChar c = true) (hc2f : ∀ c ∈ c2, c ≠ ';') :
    ∃ cap, matchTail (w2 ++ (c2 ++ (';' :: X))) = some (w2 ++ c2 ++ [';'], cap, X) := by
  have hsemi : isSpaceChar ';' = false := by decide
  have hc2split : c2.takeWhile isSpaceChar ++ c2.dropWhile isSpaceChar = c2 :=
    List.takeWhile_append_dropWhile _ _
  cases hcnw : c2.dropWhile isSpaceChar with
  | nil =>
    have hc2all : ∀ c ∈ c2, isSpaceChar c = true := by
      intro c hc
      have : c ∈ c2.takeWhile isSpaceChar := by
        rw [← hc2split, hcnw] at hc
        simpa using hc
      exact sat_of_mem_takeWhile this
    have hW : (w2 ++ (c2 ++ (';' :: X))).takeWhile isSpaceChar = w2 ++ c2 := by
      rw [takeWhile_append_of_sat _ hw2s, takeWhile_append_of_sat _ hc2all,
        takeWhile_cons_neg X hsemi, List.append_nil]
    have hD : (w2 ++ (c2 ++ (';' :: X))).dropWhile isSpaceChar = ';' :: X := by
      rw [dropWhile_append_of_sat _ hw2s, dropWhile_append_of_sat _ hc2all,
        dropWhile_cons_neg X hsemi]
    have hC0 : ((';' :: X : List Char)).takeWhile (fun c => !(c == ';')) = [] :=
      takeWhile_cons_neg X (by decide)
    have hU : ((';' :: X : List Char)).dropWhile (fun c => !(c == ';')) = ';' :: X :=
      dropWhile_cons_neg X (by decide)
    refine ⟨(w2 ++ c2).drop ((w2 ++ c2).length - 1), ?_⟩
    rw [matchTail, hW, hD, hC0, hU]
    rw [if_neg (by simp [isEmpty_false_of_ne_nil (by simp [hw2ne] : w2 ++ c2 ≠ [])]),
      if_neg (by simp), if_pos (by simp),
      if_pos (by
        have h1 : 1 ≤ w2.length := List.length_pos.mpr hw2ne
        have h2 : 1 ≤ c2.length := List.length_pos.mpr hc2ne
        simp only [List.length_append]
        omega)]
    simp [List.append_assoc]
  | cons d ds =>
    have hd : isSpaceChar d = false := head_false_of_dropWhile_cons hcnw
    have hcwsat : ∀ c ∈ c2.takeWhile isSpaceChar, isSpaceChar c = true :=
      fun c hc => sat_of_mem_takeWhile hc
    have hcnwf : ∀ c ∈ c2.dropWhile isSpaceChar, (fun c => !(c == ';')) c = true := by
      intro c hc
      have : c ≠ ';' := hc2f c (mem_of_mem_dropWhile hc)
      simpa using this
    have hsplitarg : c2 ++ (';' :: X) =
        c2.takeWhile isSpaceChar ++ (c2.dropWhile isSpaceChar ++ (';' :: X)) := by
      rw [← List.append_assoc, hc2split]
    have hW : (w2 ++ (c2 ++ (';' :: X))).takeWhile isSpaceChar =
        w2 ++ c2.takeWhile isSpaceChar := by
      rw [takeWhile_append_of_sat _ hw2s, hsplitarg, takeWhile_append_of_sat _ hcwsat,
        hcnw, List.cons_append, takeWhile_cons_neg _ hd, List.append_nil]
    have hD : (w2 ++ (c2 ++ (';' :: X))).dropWhile isSpaceChar =
        c2.dropWhile isSpaceChar ++ (';' :: X) := by
      rw [dropWhile_append_of_sat _ hw2s, hsplitarg, dropWhile_append_of_sat _ hcwsat,
        hcnw, List.cons_append, dropWhile_cons_neg _ hd]
    have hC0 : (c2.dropWhile isSpaceChar ++ (';' :: X)).takeWhile (fun c => !(c == ';')) =
        c2.dropWhile isSpaceChar := by
      rw [takeWhile_append_of_sat _ hcnwf, takeWhile_cons_neg X (by decide), List.append_nil]
    have hU : (c2.dropWhile isSpaceChar ++ (';' :: X)).dropWhile (fun c => !(c == ';')) =
        ';' :: X := by
      rw [dropWhile_append_of_sat _ hcnwf, dropWhile_cons_neg X (by decide)]
    refine ⟨c2.dropWhile isSpaceChar, ?_⟩
    rw [matchTail, hW, hD, hC0, hU]
    rw [if_neg (by simp [isEmpty_false_of_ne_nil (by simp [hw2ne] :
          w2 ++ c2.takeWhile isSpaceChar ≠ [])]),
      if_neg (by simp), if_neg (by rw [hcnw]; simp)]
    have : w2 ++ c2.takeWhile isSpaceChar ++ c2.dropWhile isSpaceChar = w2 ++ c2 := by
      rw [List.append_assoc, hc2split]
    rw [this]
    simp

theorem matchAt_shape {M : List Char} (hs : DirectiveShape M) (X : List Char) :
    ∃ cap, matchAt (M ++ X) = some { matched := M, capture := cap, rest := X } := by
  obtain ⟨w1, w2, c2, hw1ne, hw2ne, hc2ne, hw1s, hw2s, hc2f, hM⟩ := hs
  have hsol : isSpaceChar 's' = false := by decide
  have hMX : M ++ X =
      pragmaLit ++ (w1 ++ (solidityLit ++ (w2 ++ (c2 ++ (';' :: X))))) := by
    rw [hM]; simp [List.append_assoc]
  have hsolform : solidityLit ++ (w2 ++ (c2 ++ (';' :: X))) =
      's' :: (['o', 'l', 'i', 'd', 'i', 't', 'y'] ++ (w2 ++ (c2 ++ (';' :: X)))) := rfl
  have hW1 : (w1 ++ (solidityLit ++ (w2 ++ (c2 ++ (';' :: X))))).takeWhile isSpaceChar =
      w1 := by
    rw [takeWhile_append_of_sat _ hw1s, hsolform, takeWhile_cons_neg _ hsol, List.append_nil]
  have hD1 : (w1 ++ (solidityLit ++ (w2 ++ (c2 ++ (';' :: X))))).dropWhile isSpaceChar =
      solidityLit ++ (w2 ++ (c2 ++ (';' :: X))) := by
    rw [dropWhile_append_of_sat _ hw1s, hsolform, dropWhile_cons_neg _ hsol]
  obtain ⟨cap, htail⟩ := matchTail_shape X hw2ne hc2ne hw2s hc2f
  refine ⟨cap, ?_⟩
  rw [hMX]
  simp only [matchAt, stripPrefixLit_self, hW1, hD1, htail,
    isEmpty_false_of_ne_nil hw1ne, Bool.false_eq_true, if_false]
  have : pragmaLit ++ w1 ++ solidityLit ++ (w2 ++ c2 ++ [';']) = M := by
    rw [hM]; simp [List.append_assoc]
  rw [this]

/-! ### Structure of matched texts and leftmost-match stability -/

theorem shape_parts {m : List Char} (hs : DirectiveShape m) :
    ∃ mL t, m = mL ++ [';'] ∧ (∀ c ∈ mL, c ≠ ';') ∧ mL = 'p' :: t := by
  obtain ⟨w1, w2, cap, hw1ne, hw2ne, hcapne, hw1s, hw2s, hcapf, hM⟩ := hs
  refine ⟨pragmaLit ++ w1 ++ solidityLit ++ w2 ++ cap,
    ['r', 'a', 'g', 'm', 'a'] ++ w1 ++ solidityLit ++ w2 ++ cap, ?_, ?_, ?_⟩
  · rw [hM]
  · intro c hc
    have hprag : ∀ c ∈ pragmaLit, c ≠ ';' := by decide
    have hsol : ∀ c ∈ solidityLit, c ≠ ';' := by decide
    simp only [List.mem_append] at hc
    rcases hc with ((((hc | hc) | hc) | hc) | hc)
    · exact hprag c hc
    · exact space_ne_semi (hw1s c hc)
    · exact hsol c hc
    · exact space_ne_semi (hw2s c hc)
    · exact hcapf c hc
  · simp [pragmaLit]

theorem shape_ne_nil {m : List Char} (hs : DirectiveShape m) : m ≠ [] := by
  obtain ⟨mL, t, hsplit, _, hp⟩ := shape_parts hs
  rw [hsplit, hp]
  simp

theorem shape_head_p {m : List Char} (hs : DirectiveShape m) : ∃ t, m = 'p' :: t := by
  obtain ⟨mL, t, hsplit, _, hp⟩ := shape_parts hs
  exact ⟨t ++ [';'], by rw [hsplit, hp]; rfl⟩

theorem append_singleton_inj {x y : List Char} {a b : Char} (h : x ++ [a] = y ++ [b]) :
    x = y ∧ a = b := by
  have := List.append_inj' h (by rfl)
  exact ⟨this.1, by simpa using this.2⟩

theorem matchAt_nil : matchAt [] = none := rfl

theorem findMatch_sound {cs : List Char} :
    ∀ {r : RegexMatch}, findMatch cs = some r →
      cs = r.pre ++ (r.matched ++ r.rest) ∧ DirectiveShape r.matched := by
  induction cs with
  | nil => intro r h; cases h
  | cons c cs' ih =>
    intro r h
    cases hma : matchAt (c :: cs') with
    | some m =>
      simp only [findMatch, hma] at h
      obtain rfl := Option.some.inj h
      obtain ⟨hdec, hshape⟩ := matchAt_sound hma
      exact ⟨by simpa using hdec, hshape⟩
    | none =>
      cases hf : findMatch cs' with
      | none => simp [findMatch, hma, hf] at h
      | some r' =>
        simp only [findMatch, hma, hf] at h
        obtain rfl := Option.some.inj h
        obtain ⟨hdec, hshape⟩ := ih hf
        exact ⟨by simpa using congrArg (c :: ·) hdec, hshape⟩

theorem findMatch_rest_lt {cs : List Char} {r : RegexMatch} (h : findMatch cs = some r) :
    r.rest.length < cs.length := by
  obtain ⟨hdec, hshape⟩ := findMatch_sound h
  have hne : r.matched ≠ [] := shape_ne_nil hshape
  have hlen : cs.length = r.pre.length + (r.matched.length + r.rest.length) := by
    rw [hdec]; simp
  have hpos : 1 ≤ r.matched.length := List.length_pos.mpr hne
  omega

/-- Number of matches of the pattern, scanning left to right and resuming
after each matched text, as JS matchAll would count them. -/
def countMatches (cs : List Char) : Nat :=
  match h : findMatch cs with
  | none => 0
  | some r => countMatches r.rest + 1
termination_by cs.length
decreasing_by exact findMatch_rest_lt h

theorem countMatches_none {cs : List Char} (h : findMatch cs = none) :
    countMatches cs = 0 := by
  rw [countMatches]
  split
  · rfl
  · rename_i r heq
    rw [h] at heq
    cases heq

theorem countMatches_some {cs : List Char} {r : RegexMatch} (h : findMatch cs = some r) :
    countMatches cs = countMatches r.rest + 1 := by
  rw [countMatches]
  split
  · rename_i heq
    rw [h] at heq
    cases heq
  · rename_i r' heq
    rw [h] at heq
    obtain rfl := Option.some.inj heq
    rfl

theorem matchAt_localize {q m r : List Char} {res : MatchAt}
    (hq : q ≠ []) (hm : DirectiveShape m)
    (h : matchAt (q ++ (m ++ r)) = some res) :
    (∃ u, q = res.matched ++ u ∧ res.rest = u ++ (m ++ r)) ∨
    (res.matched = q ++ m ∧ res.rest = r) := by
  obtain ⟨hdec, hshape⟩ := matchAt_sound h
  obtain ⟨ML, tM, hMsplit, hMfree, hMp⟩ := shape_parts hshape
  obtain ⟨mL, tm, hmsplit, hmfree, hmp⟩ := shape_parts hm
  rcases List.append_eq_append_iff.mp hdec with ⟨u, hu1, hu2⟩ | ⟨u, hu1, hu2⟩
  · -- res.matched = q ++ u and m ++ r = u ++ res.rest
    rcases List.append_eq_append_iff.mp hu2 with ⟨e, he1, he2⟩ | ⟨e, he1, he2⟩
    · -- u = m ++ e and r = e ++ res.rest
      cases he0 : e with
      | nil =>
        subst he0
        rw [List.append_nil] at he1
        subst he1
        right
        exact ⟨hu1, by simpa using he2.symm⟩
      | cons e0 es =>
        exfalso
        rcases (List.eq_nil_or_concat e).resolve_left (by simp [he0]) with ⟨ee, el, rfl⟩
        rw [he1] at hu1
        have hform : res.matched = (q ++ (m ++ ee)) ++ [el] := by
          rw [hu1]; simp [List.append_assoc]
        rw [hMsplit] at hform
        obtain ⟨hML, _⟩ := append_singleton_inj hform
        have hsemi_mem : (';' : Char) ∈ ML := by
          rw [hML]
          have hm_mem : (';' : Char) ∈ m := by
            rw [hmsplit]
            simp
          exact List.mem_append_right q (List.mem_append_left ee hm_mem)
        exact hMfree ';' hsemi_mem rfl
    · -- m = u ++ e and res.rest = e ++ r
      cases he0 : e with
      | nil =>
        subst he0
        rw [List.append_nil] at he1
        right
        refine ⟨?_, by rw [he2]; rfl⟩
        rw [hu1, he1]
      | cons e0 es =>
        cases hu0 : u with
        | nil =>
          subst hu0
          left
          have h1 : res.matched = q := by simpa using hu1
          have h2 : m ++ r = res.rest := by simpa using hu2
          exact ⟨[], by simp [h1], by simp [← h2]⟩
        | cons u0 us =>
          exfalso
          rcases (List.eq_nil_or_concat u).resolve_left (by simp [hu0]) with ⟨uu, ul, rfl⟩
          have hform : res.matched = (q ++ uu) ++ [ul] := by
            rw [hu1]; simp [List.append_assoc]
          rw [hMsplit] at hform
          obtain ⟨hML, hul⟩ := append_singleton_inj hform
          subst hul
          rcases (List.eq_nil_or_concat e).resolve_left (by simp [he0]) with ⟨ee, el, rfl⟩
          have hform2 : m = (uu ++ [';'] ++ ee) ++ [el] := by
            rw [he1]; simp [List.append_assoc]
          rw [hmsplit] at hform2
          obtain ⟨hmL, _⟩ := append_singleton_inj hform2
          have hsemi_mem : (';' : Char) ∈ mL := by
            rw [hmL]
            exact List.mem_append_left _ (List.mem_append_right _ (by simp))
          exact hmfree ';' hsemi_mem rfl
  · -- q = res.matched ++ u and res.rest = u ++ (m ++ r)
    left
    exact ⟨u, hu1, hu2⟩

theorem shape_extend {q m m1 : List Char} (hq : q ≠ []) (hm : DirectiveShape m)
    (hqm : DirectiveShape (q ++ m)) (hm1 : DirectiveShape m1) :
    DirectiveShape (q ++ m1) := by
  obtain ⟨W1, W2, Cap, hW1ne, hW2ne, hCapne, hW1s, hW2s, hCapf, hQM⟩ := hqm
  obtain ⟨mL, tm, hmsplit, hmfree, hmp⟩ := shape_parts hm
  obtain ⟨m1L, t1, h1split, h1free, h1p⟩ := shape_parts hm1
  have hstep : q ++ mL = pragmaLit ++ W1 ++ solidityLit ++ W2 ++ Cap := by
    have h' : (q ++ mL) ++ [';'] =
        (pragmaLit ++ W1 ++ solidityLit ++ W2 ++ Cap) ++ [';'] := by
      calc (q ++ mL) ++ [';'] = q ++ (mL ++ [';']) := by simp [List.append_assoc]
        _ = q ++ m := by rw [hmsplit]
        _ = pragmaLit ++ W1 ++ solidityLit ++ W2 ++ Cap ++ [';'] := hQM
    exact (append_singleton_inj h').1
  have hstep' : q ++ mL = (pragmaLit ++ W1 ++ solidityLit ++ W2) ++ Cap := by
    rw [hstep]
  rcases List.append_eq_append_iff.mp hstep' with ⟨e, he1, he2⟩ | ⟨e, he1, he2⟩
  · -- pragmaLit ++ W1 ++ solidityLit ++ W2 = q ++ e and mL = e ++ Cap
    cases he0 : e with
    | nil =>
      subst he0
      rw [List.append_nil] at he1
      refine ⟨W1, W2, m1L, hW1ne, hW2ne, by rw [h1p]; simp, hW1s, hW2s, h1free, ?_⟩
      rw [h1split, ← he1]
      simp [List.append_assoc]
    | cons e0 es =>
      exfalso
      have hep : e0 = 'p' := by
        have hc : e ++ Cap = 'p' :: tm := by rw [← he2]; exact hmp
        rw [he0] at hc
        simpa using congrArg (fun l => l.head?) hc
      subst hep
      cases hq0 : q with
      | nil => exact hq hq0
      | cons q0 qt =>
        rw [hq0, he0] at he1
        have hp3 : pragmaLit ++ W1 ++ solidityLit ++ W2 =
            'p' :: (['r', 'a', 'g', 'm', 'a'] ++ W1 ++ solidityLit ++ W2) := by
          simp [pragmaLit]
        rw [hp3] at he1
        have htail : ['r', 'a', 'g', 'm', 'a'] ++ W1 ++ solidityLit ++ W2 =
            qt ++ 'p' :: es := by
          have := congrArg List.tail he1
          simpa using this
        have hpmem : ('p' : Char) ∈ qt ++ 'p' :: es := by simp
        rw [← htail] at hpmem
        have hragma : ∀ c ∈ (['r', 'a', 'g', 'm', 'a'] : List Char), c ≠ 'p' := by decide
        have hsolp : ∀ c ∈ solidityLit, c ≠ 'p' := by decide
        simp only [List.mem_append] at hpmem
        rcases hpmem with ((hc | hc) | hc) | hc
        · exact hragma 'p' hc rfl
        · have := hW1s 'p' hc
          simp [isSpaceChar] at this
        · exact hsolp 'p' hc rfl
        · have := hW2s 'p' hc
          simp [isSpaceChar] at this
  · -- q = (pragmaLit ++ W1 ++ solidityLit ++ W2) ++ e and Cap = e ++ mL
    refine ⟨W1, W2, e ++ m1L, hW1ne, hW2ne, by rw [h1p]; simp, hW1s, hW2s, ?_, ?_⟩
    · intro c hc
      rcases List.mem_append.mp hc with hc | hc
      · exact hCapf c (by rw [he2]; exact List.mem_append_left _ hc)
      · exact h1free c hc
    · rw [he1, h1split]
      simp [List.append_assoc]

theorem matchAt_swap {q m1 m2 r : List Char} (hq : q ≠ [])
    (hm1 : DirectiveShape m1) (hm2 : DirectiveShape m2)
    (h : matchAt (q ++ (m1 ++ r)) = none) : matchAt (q ++ (m2 ++ r)) = none := by
  by_contra hne
  obtain ⟨res, hres⟩ := Option.ne_none_iff_exists'.mp hne
  rcases matchAt_localize hq hm2 hres with ⟨u, hu1, hu2⟩ | ⟨hu1, hu2⟩
  · obtain ⟨_, hshape⟩ := matchAt_sound hres
    obtain ⟨cap, heq⟩ := matchAt_shape hshape (u ++ (m1 ++ r))
    have hform : q ++ (m1 ++ r) = res.matched ++ (u ++ (m1 ++ r)) := by
      rw [hu1]; simp [List.append_assoc]
    rw [hform, heq] at h
    cases h
  · have hqm2 : DirectiveShape (q ++ m2) := hu1 ▸ (matchAt_sound hres).2
    have hqm1 : DirectiveShape (q ++ m1) := shape_extend hq hm2 hqm2 hm1
    obtain ⟨cap, heq⟩ := matchAt_shape hqm1 r
    have hform : q ++ (m1 ++ r) = (q ++ m1) ++ r := by simp [List.append_assoc]
    rw [hform, heq] at h
    cases h

theorem findMatch_of_matchAt {cs : List Char} {ma : MatchAt} (h : matchAt cs = some ma) :
    findMatch cs = some { pre := [], matched := ma.matched, capture := ma.capture,
                          rest := ma.rest } := by
  cases cs with
  | nil => rw [matchAt_nil] at h; cases h
  | cons c cs' => simp [findMatch, h]

theorem findMatch_replace {cs : List Char} :
    ∀ {res : RegexMatch} {m1 : List Char}, findMatch cs = some res → DirectiveShape m1 →
      ∃ cap, findMatch (res.pre ++ (m1 ++ res.rest)) =
        some { pre := res.pre, matched := m1, capture := cap, rest := res.rest } := by
  induction cs with
  | nil => intro res m1 h _; cases h
  | cons c cs' ih =>
    intro res m1 h hm1
    cases hma : matchAt (c :: cs') with
    | some ma =>
      simp only [findMatch, hma] at h
      obtain rfl := Option.some.inj h
      obtain ⟨cap, heq⟩ := matchAt_shape hm1 ma.rest
      exact ⟨cap, by simpa using findMatch_of_matchAt heq⟩
    | none =>
      cases hf : findMatch cs' with
      | none => simp [findMatch, hma, hf] at h
      | some r' =>
        simp only [findMatch, hma, hf] at h
        obtain rfl := Option.some.inj h
        obtain ⟨capIH, hIH⟩ := ih hf hm1
        have hdec := (findMatch_sound hf).1
        have hshape' := (findMatch_sound hf).2
        have hform : c :: cs' = (c :: r'.pre) ++ (r'.matched ++ r'.rest) := by
          rw [hdec]; rfl
        have hnone := hma
        rw [hform] at hnone
        have hswap := matchAt_swap (by simp) hshape' hm1 hnone
    -- hswap : matchAt ((c :: r'.pre) ++ (m1 ++ r'.rest)) = none
        refine ⟨capIH, ?_⟩
        have hform2 : ((c :: r'.pre) ++ (m1 ++ r'.rest)) =
            c :: (r'.pre ++ (m1 ++ r'.rest)) := rfl
        show findMatch ((c :: r'.pre) ++ (m1 ++ r'.rest)) = _
        rw [hform2]
        rw [hform2] at hswap
        simp [findMatch, hswap, hIH]

/-! ### The two version normalizers

forceVersion embeds src/monad-mcp/fixed-solc-plugin.cjs lines 95 to 113
(identical in src/unnamed/part_011 lines 217 to 235): replace the leftmost
pragma match, or prepend the directive at the very top when there is no
match; non-string and empty (falsy) inputs yield a canned fallback
contract.  forceCorrectVersion embeds forceCorrectVersion of
simple-mcp-plugin-v2.cjs lines 197 to 223 (identical in the strict plugin
at lines 908 to 934): the only difference is that, when no pragma match
exists but an SPDX license comment does, the directive is inserted
immediately after that comment.  The JS string replace of the matched SPDX
text is a leftmost literal replacement; since any earlier occurrence of the
matched text would itself be an earlier regex match, the leftmost literal
occurrence coincides with the leftmost regex match, which is what the
embedding replaces. -/

/-- Fallback contract source of forceVersion (fixed-solc-plugin.cjs line
97). -/
def fallbackSource : String :=
  "// SPDX-License-Identifier: MIT\npragma solidity 0.8.28;\n\ncontract SimpleStorage \x7b\n    uint256 private value;\n    function setValue(uint256 _newValue) public \x7b value = _newValue; \x7d\n    function getValue() public view returns (uint256) \x7b return value; \x7d\n\x7d"

/-- Fallback contract source of forceCorrectVersion (simple-mcp-plugin-v2.cjs
line 199). -/
def fallbackSource2 : String :=
  "// SPDX-License-Identifier: MIT\npragma solidity 0.8.28;\n\ncontract SimpleStorage \x7b\n    uint256 private value;\n    \n    event ValueChanged(uint256 newValue);\n    \n    function setValue(uint256 _newValue) public \x7b\n        value = _newValue;\n        emit ValueChanged(_newValue);\n    \x7d\n    \n    function getValue() public view returns (uint256) \x7b\n        return value;\n    \x7d\n\x7d"

/-- Embedding of forceVersion: a falsy (empty) source yields the fallback;
a pragma match is replaced by the pinned directive; otherwise the directive
is prepended at the very top with a blank line. -/
def forceVersion (source : String) : String :=
  if source = "" then fallbackSource
  else
    match findMatch source.data with
    | some r => String.mk (r.pre ++ replList ++ r.rest)
    | none => String.mk (replList ++ '\n' :: '\n' :: source.data)

/-- JS-level wrapper of forceVersion: a non-string input (none) also takes
the fallback branch of the typeof test. -/
def forceVersionJS : Option String → String
  | none => fallbackSource
  | some s => forceVersion s

/-- Literal of the SPDX comment regex. -/
def spdxLit : List Char := "SPDX-License-Identifier:".data

/-- Parse of the SPDX comment pattern at the current position: two slashes,
optional whitespace, the SPDX literal, a nonempty line remainder and a
newline.  Returns the matched text and the rest. -/
def matchSpdxAt (cs : List Char) : Option (List Char × List Char) :=
  match stripPrefixLit ['/', '/'] cs with
  | none => none
  | some cs1 =>
    match stripPrefixLit spdxLit (cs1.dropWhile isSpaceChar) with
    | none => none
    | some cs2 =>
      if ((cs2.takeWhile fun c => !(c == '\n'))).isEmpty then none
      else if ((cs2.dropWhile fun c => !(c == '\n'))).isEmpty then none
      else
        some (['/', '/'] ++ cs1.takeWhile isSpaceChar ++ spdxLit ++
            (cs2.takeWhile fun c => !(c == '\n')) ++ ['\n'],
          ((cs2.dropWhile fun c => !(c == '\n'))).tail)

/-- Leftmost SPDX comment match. -/
structure SpdxMatch where
  pre : List Char
  matched : List Char
  rest : List Char
deriving DecidableEq, Repr

/-- Leftmost-match search for the SPDX comment pattern. -/
def findSpdx : List Char → Option SpdxMatch
  | [] => none
  | c :: cs =>
    match matchSpdxAt (c :: cs) with
    | some mr => some { pre := [], matched := mr.1, rest := mr.2 }
    | none =>
      match findSpdx cs with
      | some sp => some { sp with pre := c :: sp.pre }
      | none => none

/-- Embedding of forceCorrectVersion: like forceVersion, except that with
no pragma match and an SPDX comment present, the directive is inserted
directly after the comment, surrounded by newlines. -/
def forceCorrectVersion (source : String) : String :=
  if source = "" then fallbackSource2
  else
    match findMatch source.data with
    | some r => String.mk (r.pre ++ replList ++ r.rest)
    | none =>
      match findSpdx source.data with
      | some sp =>
        String.mk (sp.pre ++ sp.matched ++ ('\n' :: (replList ++ ('\n' :: sp.rest))))
      | none => String.mk (replList ++ '\n' :: '\n' :: source.data)

/-! ### Support lemmas for the normalizer theorems -/

theorem mk_data (l : List Char) : (String.mk l).data = l := rfl

theorem mk_ne_empty {l : List Char} (h : l ≠ []) : String.mk l ≠ "" := by
  intro he
  apply h
  have := congrArg String.data he
  simpa using this

theorem replList_shape : DirectiveShape replList :=
  ⟨[' '], [' '], versList, by simp, by simp, by decide, by decide, by decide, by decide,
    by decide⟩

theorem matchAt_cons_ne_p {c : Char} (l : List Char) (h : ¬(c = 'p')) :
    matchAt (c :: l) = none := by
  simp [matchAt, pragmaLit, stripPrefixLit, h]

theorem findMatch_cons_none {c : Char} {cs : List Char} (hma : matchAt (c :: cs) = none)
    (hf : findMatch cs = none) : findMatch (c :: cs) = none := by
  simp [findMatch, hma, hf]

theorem findMatch_none_append {a b : List Char} (h : findMatch (a ++ b) = none) :
    findMatch b = none := by
  induction a with
  | nil => simpa using h
  | cons x xs ih =>
    apply ih
    have h' : findMatch (x :: (xs ++ b)) = none := by simpa using h
    cases hma : matchAt (x :: (xs ++ b)) with
    | some m => simp [findMatch, hma] at h'
    | none =>
      cases hf : findMatch (xs ++ b) with
      | some r => simp [findMatch, hma, hf] at h'
      | none => rfl

theorem forceVersion_of_match {s : String} {r : RegexMatch} (hs : s ≠ "")
    (h : findMatch s.data = some r) :
    forceVersion s = String.mk (r.pre ++ replList ++ r.rest) := by
  rw [forceVersion, if_neg hs, h]

theorem forceVersion_of_none {s : String} (hs : s ≠ "") (h : findMatch s.data = none) :
    forceVersion s = String.mk (replList ++ '\n' :: '\n' :: s.data) := by
  rw [forceVersion, if_neg hs, h]

theorem countMatches_top_insert {t : List Char} (h : findMatch t = none) :
    countMatches (replList ++ '\n' :: '\n' :: t) = 1 := by
  obtain ⟨cap, hma⟩ := matchAt_shape replList_shape ('\n' :: '\n' :: t)
  have hfm := findMatch_of_matchAt hma
  rw [countMatches_some hfm]
  have h1 : findMatch ('\n' :: '\n' :: t) = none :=
    findMatch_cons_none (matchAt_cons_ne_p _ (by decide))
      (findMatch_cons_none (matchAt_cons_ne_p _ (by decide)) h)
  rw [countMatches_none h1]

theorem forceVersion_idem (s : String) : forceVersion (forceVersion s) = forceVersion s := by
  by_cases hs : s = ""
  · subst hs
    have h0 : forceVersion "" = fallbackSource := by rw [forceVersion, if_pos rfl]
    rw [h0]
    decide
  · cases hf : findMatch s.data with
    | some r =>
      have h1 := forceVersion_of_match hs hf
      obtain ⟨cap, h2⟩ := findMatch_replace hf replList_shape
      have hne : (r.pre ++ replList ++ r.rest) ≠ [] := by simp [replList]
      rw [h1]
      rw [forceVersion, if_neg (mk_ne_empty hne), mk_data]
      have hassoc : r.pre ++ replList ++ r.rest = r.pre ++ (replList ++ r.rest) := by
        simp [List.append_assoc]
      rw [hassoc, h2]
      simp [List.append_assoc]
    | none =>
      have h1 := forceVersion_of_none hs hf
      obtain ⟨cap, h2⟩ := matchAt_shape replList_shape ('\n' :: '\n' :: s.data)
      have h3 := findMatch_of_matchAt h2
      have hne : (replList ++ '\n' :: '\n' :: s.data) ≠ [] := by simp [replList]
      rw [h1, forceVersion, if_neg (mk_ne_empty hne), mk_data, h3]
      simp

theorem findMatch_cons_step {c : Char} {cs : List Char} {r : RegexMatch}
    (hma : matchAt (c :: cs) = none) (hf : findMatch cs = some r) :
    findMatch (c :: cs) =
      some { pre := c :: r.pre, matched := r.matched, capture := r.capture,
             rest := r.rest } := by
  simp [findMatch, hma, hf]

theorem findMatch_spdx_insert :
    ∀ (a b : List Char), findMatch (a ++ b) = none →
      ∃ res : RegexMatch, findMatch (a ++ ('\n' :: (replList ++ ('\n' :: b)))) = some res ∧
        res.rest = '\n' :: b := by
  intro a
  induction a with
  | nil =>
    intro b h
    obtain ⟨cap, hma⟩ := matchAt_shape replList_shape ('\n' :: b)
    have hfm := findMatch_of_matchAt hma
    dsimp only at hfm
    have hnl : matchAt ('\n' :: (replList ++ ('\n' :: b))) = none :=
      matchAt_cons_ne_p _ (by decide)
    have hstep := findMatch_cons_step hnl hfm
    refine ⟨{ pre := '\n' :: [], matched := replList, capture := cap,
              rest := '\n' :: b }, ?_, rfl⟩
    simpa using hstep
  | cons x xs ih =>
    intro b h
    have hxh : findMatch (xs ++ b) = none := by
      have h' : findMatch (x :: (xs ++ b)) = none := by simpa using h
      cases hma : matchAt (x :: (xs ++ b)) with
      | some m => simp [findMatch, hma] at h'
      | none =>
        cases hf2 : findMatch (xs ++ b) with
        | some r => simp [findMatch, hma, hf2] at h'
        | none => rfl
    cases hma : matchAt (x :: (xs ++ ('\n' :: (replList ++ ('\n' :: b))))) with
    | some m =>
      have hform : x :: (xs ++ ('\n' :: (replList ++ ('\n' :: b)))) =
          (x :: (xs ++ ['\n'])) ++ (replList ++ ('\n' :: b)) := by simp
      rw [hform] at hma
      rcases matchAt_localize (by simp) replList_shape hma with ⟨u, hu1, hu2⟩ | ⟨hu1, hu2⟩
      · exfalso
        obtain ⟨_, hshape⟩ := matchAt_sound hma
        obtain ⟨ML, tM, hMsplit, hMfree, hMp⟩ := shape_parts hshape
        cases hu0 : u with
        | nil =>
          subst hu0
          rw [List.append_nil] at hu1
          have hx : (x :: xs) ++ ['\n'] = ML ++ [';'] := by
            rw [← hMsplit, ← hu1]
            exact List.cons_append x xs ['\n']
          obtain ⟨_, hbad⟩ := append_singleton_inj hx
          exact absurd hbad (by decide)
        | cons u0 us =>
          rcases (List.eq_nil_or_concat u).resolve_left (by simp [hu0]) with ⟨uu, ul, rfl⟩
          have hform2 : (x :: xs) ++ ['\n'] = (m.matched ++ uu) ++ [ul] := by
            simpa [List.append_assoc] using hu1
          obtain ⟨hxu, hul⟩ := append_singleton_inj hform2
          obtain ⟨cap2, hma2⟩ := matchAt_shape hshape (uu ++ b)
          have hsplit2 : x :: (xs ++ b) = m.matched ++ (uu ++ b) := by
            have := congrArg (· ++ b) hxu
            simpa [List.append_assoc] using this
          have hmnone : matchAt (x :: (xs ++ b)) = none := by
            cases hm0 : matchAt (x :: (xs ++ b)) with
            | none => rfl
            | some mm =>
              have h' : findMatch (x :: (xs ++ b)) = none := by simpa using h
              simp [findMatch, hm0] at h'
          rw [hsplit2, hma2] at hmnone
          cases hmnone
      · refine ⟨{ pre := [], matched := m.matched, capture := m.capture, rest := m.rest },
          ?_, by simpa using hu2⟩
        rw [← hform] at hma
        have hcons : (x :: xs) ++ ('\n' :: (replList ++ ('\n' :: b))) =
            x :: (xs ++ ('\n' :: (replList ++ ('\n' :: b)))) := rfl
        rw [hcons]
        exact findMatch_of_matchAt hma
    | none =>
      obtain ⟨res', hres', hrest'⟩ := ih b hxh
      refine ⟨{ pre := x :: res'.pre, matched := res'.matched, capture := res'.capture,
                rest := res'.rest }, ?_, by simpa using hrest'⟩
      have hcons : (x :: xs) ++ ('\n' :: (replList ++ ('\n' :: b))) =
          x :: (xs ++ ('\n' :: (replList ++ ('\n' :: b)))) := rfl
      rw [hcons]
      simp [findMatch, hma, hres']

theorem countMatches_spdx_insert {a b : List Char} (h : findMatch (a ++ b) = none) :
    countMatches (a ++ ('\n' :: (replList ++ ('\n' :: b)))) = 1 := by
  obtain ⟨res, hres, hrest⟩ := findMatch_spdx_insert a b h
  rw [countMatches_some hres, hrest]
  have h1 : findMatch ('\n' :: b) = none :=
    findMatch_cons_none (matchAt_cons_ne_p _ (by decide)) (findMatch_none_append h)
  rw [countMatches_none h1]

theorem matchSpdxAt_sound {cs : List Char} {m r : List Char}
    (h : matchSpdxAt cs = some (m, r)) : cs = m ++ r := by
  cases h1 : stripPrefixLit ['/', '/'] cs with
  | none => simp [matchSpdxAt, h1] at h
  | some cs1 =>
    cases h2 : stripPrefixLit spdxLit (cs1.dropWhile isSpaceChar) with
    | none => simp [matchSpdxAt, h1, h2] at h
    | some cs2 =>
      simp only [matchSpdxAt, h1, h2] at h
      by_cases h3 : (((cs2.takeWhile fun c => !(c == '\n'))).isEmpty : Bool) = true
      · rw [if_pos h3] at h; cases h
      · rw [if_neg h3] at h
        cases hU : cs2.dropWhile (fun c => !(c == '\n')) with
        | nil =>
          rw [if_pos (by rw [hU]; rfl)] at h
          cases h
        | cons y ys =>
          have hy : y = '\n' := by
            have := head_false_of_dropWhile_cons hU
            simpa using this
          subst hy
          rw [if_neg (by rw [hU]; simp), hU] at h
          simp only [Option.some.injEq, Prod.mk.injEq, List.tail_cons] at h
          obtain ⟨hm, hr⟩ := h
          have hc1 : cs = ['/', '/'] ++ cs1 := stripPrefixLit_sound h1
          have hc1split : cs1.takeWhile isSpaceChar ++ cs1.dropWhile isSpaceChar = cs1 :=
        List.takeWhile_append_dropWhile _ _
          have hc2 : cs1.dropWhile isSpaceChar = spdxLit ++ cs2 := stripPrefixLit_sound h2
          have hc2split : (cs2.takeWhile fun c => !(c == '\n')) ++
              (cs2.dropWhile fun c => !(c == '\n')) = cs2 :=
            List.takeWhile_append_dropWhile _ _
          rw [← hm, ← hr]
          conv_lhs => rw [hc1, ← hc1split, hc2, ← hc2split, hU]
          simp [List.append_assoc]

theorem findSpdx_sound {cs : List Char} :
    ∀ {sp : SpdxMatch}, findSpdx cs = some sp →
      cs = sp.pre ++ (sp.matched ++ sp.rest) := by
  induction cs with
  | nil => intro sp h; cases h
  | cons c cs' ih =>
    intro sp h
    cases hma : matchSpdxAt (c :: cs') with
    | some mr =>
      simp only [findSpdx, hma] at h
      obtain rfl := Option.some.inj h
      simpa using matchSpdxAt_sound (by rw [hma] : matchSpdxAt (c :: cs') = some (mr.1, mr.2))
    | none =>
      cases hf : findSpdx cs' with
      | none => simp [findSpdx, hma, hf] at h
      | some sp' =>
        simp only [findSpdx, hma, hf] at h
        obtain rfl := Option.some.inj h
        simpa using congrArg (c :: ·) (ih hf)

theorem replList_split : replList = "pragma solidity ".data ++ versList ++ [';'] := by decide

/-! ### Claim C5 -/

/-- C5 counterexample: a source with two identical pragma directives has an
existing directive with specifier 0.7.0, different from 0.8.28, yet the
normalizer output still contains 0.7.0: the JS replace with a non-global
regex rewrites only the first directive, so the second survives verbatim,
against the claim that the output no longer contains the original
specifier. -/
theorem forceVersion_keeps_duplicate_specifier :
    findMatch ("pragma solidity 0.7.0;\npragma solidity 0.7.0;\n" : String).data =
      some { pre := [], matched := "pragma solidity 0.7.0;".data,
             capture := "0.7.0".data,
             rest := "\npragma solidity 0.7.0;\n".data } ∧
    ("0.7.0" : String) ≠ "0.8.28" ∧
    containsSub (forceVersion "pragma solidity 0.7.0;\npragma solidity 0.7.0;\n").data
      "0.7.0".data = true := by
  decide

/-- C5 amended: for every source text with an existing pragma directive,
the normalizer output contains the required version string 0.8.28 and is
exactly the source with the first matched directive replaced by the text
pragma solidity 0.8.28; — the original specifier X disappears only with
that one directive, and can survive when it occurs elsewhere (for example
in a second directive or a comment) or as a substring of the
replacement. -/
theorem forceVersion_replaces_first_directive (s : String) (r : RegexMatch)
    (hs : s ≠ "") (h : findMatch s.data = some r) :
    (forceVersion s).data = r.pre ++ replList ++ r.rest ∧
    containsSub (forceVersion s).data versList = true := by
  have h1 := forceVersion_of_match hs h
  refine ⟨by rw [h1, mk_data], ?_⟩
  rw [h1, mk_data]
  have hform : r.pre ++ replList ++ r.rest =
      (r.pre ++ "pragma solidity ".data) ++ versList ++ (';' :: r.rest) := by
    rw [replList_split]
    simp [List.append_assoc]
  rw [hform]
  exact containsSub_of_append _ _ _

/-- Witness for the amended C5 at a concrete input with a caret range
specifier. -/
theorem forceVersion_replaces_first_directive_witness :
    (forceVersion "pragma solidity ^0.4.17;\ncontract C").data =
      ([] : List Char) ++ replList ++ "\ncontract C".data ∧
    containsSub (forceVersion "pragma solidity ^0.4.17;\ncontract C").data versList = true :=
  forceVersion_replaces_first_directive "pragma solidity ^0.4.17;\ncontract C"
    { pre := [], matched := "pragma solidity ^0.4.17;".data, capture := "^0.4.17".data,
      rest := "\ncontract C".data }
    (by decide) (by decide)

/-! ### Claim C6 -/

/-- C6 counterexample: on a source with an SPDX license comment and no
pragma directive, the fixed-solc variant of the Version Normalizer
(forceVersion) places the inserted directive at the very top of the text,
before the SPDX comment, not immediately after it as the claim states for
sources with an SPDX comment present. -/
theorem forceVersion_ignores_spdx_placement :
    findMatch ("// SPDX-License-Identifier: MIT\ncontract A" : String).data = none ∧
    (findSpdx ("// SPDX-License-Identifier: MIT\ncontract A" : String).data).map
      SpdxMatch.matched = some "// SPDX-License-Identifier: MIT\n".data ∧
    forceVersion "// SPDX-License-Identifier: MIT\ncontract A" =
      "pragma solidity 0.8.28;\n\n// SPDX-License-Identifier: MIT\ncontract A" := by
  decide

/-- C6 amended: for every nonempty source text without a pragma directive,
the normalizer output contains exactly one pragma directive; the
forceCorrectVersion variant inserts it immediately after the SPDX license
comment when one is present and at the very top otherwise, while the
fixed-solc forceVersion variant always inserts it at the very top, even
when an SPDX comment is present. -/
theorem normalizer_inserts_single_directive (s : String)
    (hs : s ≠ "") (hnone : findMatch s.data = none) :
    ((forceVersion s).data = replList ++ '\n' :: '\n' :: s.data ∧
      countMatches (forceVersion s).data = 1) ∧
    (findSpdx s.data = none →
      (forceCorrectVersion s).data = replList ++ '\n' :: '\n' :: s.data ∧
      countMatches (forceCorrectVersion s).data = 1) ∧
    (∀ sp : SpdxMatch, findSpdx s.data = some sp →
      (forceCorrectVersion s).data =
        sp.pre ++ sp.matched ++ ('\n' :: (replList ++ ('\n' :: sp.rest))) ∧
      countMatches (forceCorrectVersion s).data = 1) := by
  refine ⟨⟨?_, ?_⟩, ?_, ?_⟩
  · rw [forceVersion_of_none hs hnone, mk_data]
  · rw [forceVersion_of_none hs hnone, mk_data]
    exact countMatches_top_insert hnone
  · intro hsp
    have h1 : forceCorrectVersion s = String.mk (replList ++ '\n' :: '\n' :: s.data) := by
      rw [forceCorrectVersion, if_neg hs, hnone, hsp]
    rw [h1, mk_data]
    exact ⟨rfl, countMatches_top_insert hnone⟩
  · intro sp hsp
    have h1 : forceCorrectVersion s =
        String.mk (sp.pre ++ sp.matched ++ ('\n' :: (replList ++ ('\n' :: sp.rest)))) := by
      rw [forceCorrectVersion, if_neg hs, hnone, hsp]
    have hsound := findSpdx_sound hsp
    have hnone2 : findMatch ((sp.pre ++ sp.matched) ++ sp.rest) = none := by
      have hassoc : (sp.pre ++ sp.matched) ++ sp.rest = sp.pre ++ (sp.matched ++ sp.rest) := by
        simp [List.append_assoc]
      rw [hassoc, ← hsound]
      exact hnone
    rw [h1, mk_data]
    refine ⟨rfl, ?_⟩
    have hform : sp.pre ++ sp.matched ++ ('\n' :: (replList ++ ('\n' :: sp.rest))) =
        (sp.pre ++ sp.matched) ++ ('\n' :: (replList ++ ('\n' :: sp.rest))) := by
      simp [List.append_assoc]
    rw [hform]
    exact countMatches_spdx_insert hnone2

/-- Witness for the amended C6 at concrete inputs, one without and one with
an SPDX comment. -/
theorem normalizer_inserts_single_directive_witness :
    countMatches (forceVersion "contract A").data = 1 ∧
    countMatches (forceCorrectVersion "// SPDX-License-Identifier: MIT\ncontract A").data
      = 1 :=
  ⟨(normalizer_inserts_single_directive "contract A" (by decide) (by decide)).1.2,
    ((normalizer_inserts_single_directive "// SPDX-License-Identifier: MIT\ncontract A"
        (by decide) (by decide)).2.2
      { pre := [], matched := "// SPDX-License-Identifier: MIT\n".data,
        rest := "contract A".data }
      (by decide)).2⟩

/-! ### Claim C9 -/

/-- C9: the Version Normalizer is total and idempotent: every input,
including the non-string and empty inputs that take the fallback branch,
produces an output containing the directive pragma solidity 0.8.28;, and
running the normalizer on its own output changes nothing. -/
theorem forceVersion_total_idempotent :
    (∀ src : Option String, containsSub (forceVersionJS src).data replList = true) ∧
    (∀ s : String, forceVersion (forceVersion s) = forceVersion s) := by
  constructor
  · intro src
    cases src with
    | none => decide
    | some s =>
      by_cases hs : s = ""
      · subst hs
        have h0 : forceVersion "" = fallbackSource := by rw [forceVersion, if_pos rfl]
        show containsSub (forceVersion "").data replList = true
        rw [h0]
        decide
      · cases hf : findMatch s.data with
        | some r =>
          show containsSub (forceVersion s).data replList = true
          rw [forceVersion_of_match hs hf, mk_data]
          exact containsSub_of_append _ _ _
        | none =>
          show containsSub (forceVersion s).data replList = true
          rw [forceVersion_of_none hs hf, mk_data]
          have := containsSub_of_append [] replList ('\n' :: '\n' :: s.data)
          simpa using this
  · exact forceVersion_idem

end MonDeployer
